import Mathlib

/-!
Verification of the in-memory chat relay.

JavaScript strings are embedded as lists of UTF-16 code units (`JStr`).
The HTTP route handlers are translated from the repository's route files;
the `server-state` store they call is not part of the repository's sources,
so its operations are modelled from the specification (each such definition
says so in its doc comment).
-/

namespace Mesh

/-- A JavaScript string, as its sequence of UTF-16 code units. -/
abbrev JStr := List Nat

/-- The code points removed by JavaScript `String.prototype.trim`
(WhiteSpace and LineTerminator productions). -/
def isJsWs (c : Nat) : Bool :=
  c == 0x09 || c == 0x0A || c == 0x0B || c == 0x0C || c == 0x0D ||
  c == 0x20 || c == 0xA0 || c == 0x1680 ||
  (0x2000 ≤ c && c ≤ 0x200A) ||
  c == 0x2028 || c == 0x2029 || c == 0x202F || c == 0x205F ||
  c == 0x3000 || c == 0xFEFF

/-- JavaScript `s.trim()`: strip leading and trailing whitespace. -/
def jsTrim (s : JStr) : JStr :=
  (((s.dropWhile isJsWs).reverse.dropWhile isJsWs)).reverse

/-- The code units of the string "Anonymous". -/
def anonymousName : JStr := [0x41, 0x6E, 0x6F, 0x6E, 0x79, 0x6D, 0x6F, 0x75, 0x73]

/-- `sanitizeName` from the user route: non-strings (modelled as `none`)
become "Anonymous"; otherwise the value is trimmed, a blank result becomes
"Anonymous", and a non-blank result is truncated to 48 code units. -/
def sanitizeName (value : Option JStr) : JStr :=
  match value with
  | none => anonymousName
  | some v =>
    let trimmed := jsTrim v
    if 0 < trimmed.length then trimmed.take 48 else anonymousName

/-- A registered participant. -/
structure Identity where
  uid : JStr
  name : JStr
deriving DecidableEq

/-- Message kind tag. -/
inductive MsgKind
  | message
  | system
deriving DecidableEq

/-- A stored chat message. -/
structure Message where
  id : Nat
  conversationId : JStr
  fromUid : Option JStr
  text : JStr
  kind : MsgKind
  timestamp : Nat
deriving DecidableEq

/-- A two-party conversation with its append-only message log. -/
structure Conversation where
  id : JStr
  participants : List Identity
  messages : List Message
  updatedAt : Nat
deriving DecidableEq

/-- The uids of a conversation's participants. -/
def participantUids (c : Conversation) : List JStr :=
  c.participants.map (fun u => u.uid)

/-- The tagged events delivered over a live feed. -/
inductive ServerEvent
  | hello (uid : JStr)
  | conversation (payload : Conversation)
  | message (conversationId : JStr) (payload : Message)
  | user (uid : JStr) (name : JStr)
  | system (text : JStr)
deriving DecidableEq

/-- A live feed: the identity it observes and the events delivered to it so
far, in delivery order. -/
structure Feed where
  uid : JStr
  delivered : List ServerEvent
deriving DecidableEq

/-- The whole in-memory relay state. -/
structure ServerState where
  users : List Identity
  conversations : List Conversation
  feeds : List Feed
  nextMessageId : Nat
deriving DecidableEq

/-- The state of a freshly started relay process. -/
def initialState : ServerState := ⟨[], [], [], 0⟩

/-- Modelled from the spec: `get(id)` on the IdentityRegistry — lookup only,
no side effects. -/
def getUser (uid : JStr) (s : ServerState) : Option Identity :=
  s.users.find? (fun u => u.uid == uid)

/-- Lookup of a conversation by id in the ConversationStore. -/
def findConversation (cid : JStr) (s : ServerState) : Option Conversation :=
  s.conversations.find? (fun c => c.id == cid)

/-- Store-level error kinds. -/
inductive StoreError
  | notFound
  | invalidArgument
deriving DecidableEq

/-- Deliver an event to one feed if it observes the given identity. -/
def pushToFeed (uid : JStr) (e : ServerEvent) (f : Feed) : Feed :=
  if f.uid == uid then { f with delivered := f.delivered ++ [e] } else f

/-- Modelled from the spec: `publish(identityId, event)` on the
SubscriptionRegistry — deliver the event to every currently registered
observer of the identity. -/
def publish (uid : JStr) (e : ServerEvent) (s : ServerState) : ServerState :=
  { s with feeds := s.feeds.map (pushToFeed uid e) }

/-- Publish one event to the observers of each identity in a list. -/
def publishAll (uids : List JStr) (e : ServerEvent) (s : ServerState) : ServerState :=
  match uids with
  | [] => s
  | u :: rest => publishAll rest e (publish u e s)

/-- Code-unit lexicographic order on JavaScript strings (the order of the
JS `<` operator on strings). -/
def lexLe : JStr → JStr → Bool
  | [], _ => true
  | _ :: _, [] => false
  | a :: as, b :: bs =>
    if a < b then true else if b < a then false else lexLe as bs

/-- Separator used when joining the two sorted uids into a conversation id. -/
def pairSeparator : JStr := [0x3A, 0x3A]

/-- Modelled from the spec: the canonical conversation id of an unordered
pair — sort the two ids lexicographically and concatenate with a separator. -/
def canonicalConversationId (a b : JStr) : JStr :=
  if lexLe a b then a ++ pairSeparator ++ b else b ++ pairSeparator ++ a

/-- Modelled from the spec: `ensure(idA, idB)` on the ConversationStore.
Fails with `InvalidArgument` on a self-conversation or an unknown identity;
returns the existing conversation of the canonical id if present; otherwise
creates it with both participants and an empty log and publishes a
"conversation" event to the subscribers of both participants. -/
def ensureConversation (fromUid toUid : JStr) (now : Nat) (s : ServerState) :
    Except StoreError (Conversation × ServerState) :=
  if fromUid == toUid then .error .invalidArgument
  else
    match getUser fromUid s, getUser toUid s with
    | some uFrom, some uTo =>
      let cid := canonicalConversationId fromUid toUid
      match findConversation cid s with
      | some c => .ok (c, s)
      | none =>
        let c : Conversation := ⟨cid, [uFrom, uTo], [], now⟩
        let s1 : ServerState := { s with conversations := c :: s.conversations }
        .ok (c, publishAll [fromUid, toUid] (.conversation c) s1)
    | _, _ => .error .invalidArgument

/-- Modelled from the spec: `append(conversationId, author, text)` on the
ConversationStore. Fails with `NotFound` if the conversation does not exist,
with `InvalidArgument` if the trimmed text is empty or the author is not a
participant; otherwise assigns a fresh id and a timestamp that is at least
the conversation's `updatedAt`, appends, updates `updatedAt`, and publishes
a "message" event to the subscribers of both participants. -/
def appendMessage (cid : JStr) (author : Identity) (text : JStr) (now : Nat)
    (s : ServerState) : Except StoreError (Message × ServerState) :=
  match findConversation cid s with
  | none => .error .notFound
  | some c =>
    if (jsTrim text).length == 0 then .error .invalidArgument
    else if !((participantUids c).contains author.uid) then .error .invalidArgument
    else
      let ts := max now c.updatedAt
      let m : Message := ⟨s.nextMessageId, cid, some author.uid, text, .message, ts⟩
      let c' : Conversation := { c with messages := c.messages ++ [m], updatedAt := ts }
      let s1 : ServerState :=
        { s with
          conversations := s.conversations.map (fun d => if d.id == cid then c' else d),
          nextMessageId := s.nextMessageId + 1 }
      .ok (m, publishAll (participantUids c) (.message cid m) s1)

/-- Modelled from the spec: `upsert(id, name)` on the IdentityRegistry —
creates the identity if absent, else updates the display name only if a
non-empty name is supplied; always returns the stored record. -/
def saveUser (uid name : JStr) (s : ServerState) : Identity × ServerState :=
  match getUser uid s with
  | none =>
    let u : Identity := ⟨uid, name⟩
    (u, { s with users := u :: s.users })
  | some u =>
    if 0 < name.length then
      let u' : Identity := ⟨uid, name⟩
      (u', { s with users := s.users.map (fun v => if v.uid == uid then u' else v) })
    else (u, s)

/-- Modelled from the spec: `rename(id, name)` on the IdentityRegistry —
requires the identity to exist, else fails with `NotFound`; on success
updates the display name and publishes a "user" event to the identity's own
subscribers. -/
def renameParticipant (uid name : JStr) (s : ServerState) :
    Except StoreError (Identity × ServerState) :=
  match getUser uid s with
  | none => .error .notFound
  | some _ =>
    let u' : Identity := ⟨uid, name⟩
    let s1 : ServerState :=
      { s with users := s.users.map (fun v => if v.uid == uid then u' else v) }
    .ok (u', publish uid (.user uid name) s1)

/-- Modelled from the spec: `listForIdentity(id)` — every conversation in
which the identity participates, snapshot at call time. -/
def listConversationsForUser (uid : JStr) (s : ServerState) : List Conversation :=
  s.conversations.filter (fun c => (participantUids c).contains uid)

/-- The snapshot sent to a freshly opened feed: one "conversation" event per
conversation of the identity. -/
def snapshotEvents (uid : JStr) (s : ServerState) : List ServerEvent :=
  (listConversationsForUser uid s).map ServerEvent.conversation

/-- The events route's `start` callback: it subscribes the new feed, then
enqueues a "hello" event and one "conversation" event per existing
conversation of the identity, all within one synchronous (hence atomic)
block; the fresh feed therefore begins life already holding exactly those
events. -/
def openFeed (uid : JStr) (s : ServerState) : ServerState :=
  { s with feeds := s.feeds ++ [⟨uid, .hello uid :: snapshotEvents uid s⟩] }

/-- A route handler's outcome: a JSON payload, a JSON error response with
its HTTP status, or an exception that escaped the handler uncaught. -/
inductive RouteResult (α : Type)
  | ok (payload : α)
  | clientError (status : Nat)
  | thrown (e : StoreError)
deriving DecidableEq

/-- The message route's `POST` handler: validates presence of
`conversationId` and `fromUid` and non-emptiness of the trimmed text,
resolves the sender, and calls `appendMessage` with the text truncated to
2000 code units, mapping any store error to a 400 response. -/
def messagePOST (bodyCid bodyFrom bodyText : Option JStr) (now : Nat)
    (s : ServerState) : RouteResult Message × ServerState :=
  let t := match bodyText with
    | some v => jsTrim v
    | none => []
  match bodyCid, bodyFrom with
  | some cid, some fuid =>
    if t.length == 0 then (.clientError 400, s)
    else
      match getUser fuid s with
      | none => (.clientError 404, s)
      | some user =>
        match appendMessage cid user (t.take 2000) now s with
        | .ok (m, s') => (.ok m, s')
        | .error _ => (.clientError 400, s)
  | _, _ => (.clientError 400, s)

/-- The user route's `POST` handler: requires `uid`, sanitizes the supplied
name, and upserts the identity. -/
def userPOST (bodyUid bodyName : Option JStr) (s : ServerState) :
    RouteResult Identity × ServerState :=
  match bodyUid with
  | none => (.clientError 400, s)
  | some uid =>
    let r := saveUser uid (sanitizeName bodyName) s
    (.ok r.1, r.2)

/-- The user route's `PUT` handler: requires `uid`, sanitizes the supplied
name, and renames; the handler has no try/catch, so a store error escapes
the handler as an uncaught exception, leaving the state unchanged. -/
def userPUT (bodyUid bodyName : Option JStr) (s : ServerState) :
    RouteResult Identity × ServerState :=
  match bodyUid with
  | none => (.clientError 400, s)
  | some uid =>
    match renameParticipant uid (sanitizeName bodyName) s with
    | .ok (u, s') => (.ok u, s')
    | .error e => (.thrown e, s)

/-- The connect route's `POST` handler: requires both uids and calls
`ensureConversation`, mapping any store error to a 400 response. -/
def connectPOST (bodyFrom bodyTo : Option JStr) (now : Nat) (s : ServerState) :
    RouteResult Conversation × ServerState :=
  match bodyFrom, bodyTo with
  | some fuid, some tuid =>
    match ensureConversation fuid tuid now s with
    | .ok (c, s') => (.ok c, s')
    | .error _ => (.clientError 400, s)
  | _, _ => (.clientError 400, s)

/-- One client-visible operation against the relay. Each runs to completion
atomically, which is JavaScript's single-threaded execution model: a route
handler's synchronous body cannot interleave with another handler. -/
inductive ClientOp
  | register (uid name : Option JStr)
  | rename (uid name : Option JStr)
  | connect (fromUid toUid : Option JStr) (now : Nat)
  | send (cid fromUid text : Option JStr) (now : Nat)
  | subscribe (uid : JStr)
deriving DecidableEq

/-- The state transition of one client operation. -/
def step (s : ServerState) (op : ClientOp) : ServerState :=
  match op with
  | .register uid name => (userPOST uid name s).2
  | .rename uid name => (userPUT uid name s).2
  | .connect f t now => (connectPOST f t now s).2
  | .send c f t now => (messagePOST c f t now s).2
  | .subscribe uid => openFeed uid s

/-- Run a sequence of client operations. -/
def run (s : ServerState) (ops : List ClientOp) : ServerState :=
  ops.foldl step s

/-- The message log of the conversation named `cid` (empty if absent). -/
def convMessages (cid : JStr) (s : ServerState) : List Message :=
  match findConversation cid s with
  | some c => c.messages
  | none => []

/-- Timestamps are non-decreasing along the list. -/
def tsSorted : List Message → Bool
  | [] => true
  | [_] => true
  | a :: b :: rest => decide (a.timestamp ≤ b.timestamp) && tsSorted (b :: rest)

/-- A conversation's log is timestamp-sorted and bounded by `updatedAt`. -/
def convWellFormed (c : Conversation) : Bool :=
  tsSorted c.messages &&
    c.messages.all (fun m => decide (m.timestamp ≤ c.updatedAt))

/-- Every stored conversation is well-formed. -/
def ConvsWellFormed (s : ServerState) : Prop :=
  ∀ c ∈ s.conversations, convWellFormed c = true

instance decConvsWellFormed (s : ServerState) : Decidable (ConvsWellFormed s) := by
  unfold ConvsWellFormed
  infer_instance

/-- One message-route request: sender, raw text, and the clock reading. -/
structure SendReq where
  fromUid : JStr
  text : JStr
  now : Nat
deriving DecidableEq

/-- Run a sequence of message-route requests against one conversation,
returning the final state and the number of successful sends. -/
def runSends (cid : JStr) : ServerState → List SendReq → ServerState × Nat
  | s, [] => (s, 0)
  | s, r :: rest =>
    match messagePOST (some cid) (some r.fromUid) (some r.text) r.now s with
    | (.ok _, s') => ((runSends cid s' rest).1, (runSends cid s' rest).2 + 1)
    | (.clientError _, s') => runSends cid s' rest
    | (.thrown _, s') => runSends cid s' rest

/-- A UTF-16 high surrogate code unit. -/
def isHighSurrogate (c : Nat) : Bool :=
  decide (0xD800 ≤ c) && decide (c ≤ 0xDBFF)

/-- A UTF-16 low surrogate code unit. -/
def isLowSurrogate (c : Nat) : Bool :=
  decide (0xDC00 ≤ c) && decide (c ≤ 0xDFFF)

/-- Well-formed UTF-16: every high surrogate is immediately followed by a
low surrogate, and no low surrogate appears unpaired. -/
def wellFormedUtf16 : List Nat → Bool
  | [] => true
  | [c] => !(isHighSurrogate c || isLowSurrogate c)
  | c :: c2 :: rest =>
    if isHighSurrogate c then isLowSurrogate c2 && wellFormedUtf16 rest
    else if isLowSurrogate c then false
    else wellFormedUtf16 (c2 :: rest)

/-- The surrogate-splitting counterexample text: 1999 copies of "a"
followed by one astral code point (a high and a low surrogate). -/
def surrogateSplitText : JStr := List.replicate 1999 97 ++ [0xD83D, 0xDE00]

/-- `f'` evolves from feed `f`: same observer, delivered list extended only
by hello-free events. -/
def FeedExt (f f' : Feed) : Prop :=
  f'.uid = f.uid ∧ ∃ ext, f'.delivered = f.delivered ++ ext ∧
    ∀ u, ServerEvent.hello u ∉ ext

/-- A feed transformer that only extends feeds with hello-free events. -/
def PushLike (g : Feed → Feed) : Prop := ∀ f, FeedExt f (g f)

/-- Whether an event is the conversation event of the conversation named
`cid`. -/
def isConvEvent (cid : JStr) (e : ServerEvent) : Bool :=
  match e with
  | .conversation c => c.id == cid
  | _ => false

/-- How many conversation events for `cid` a feed has received. -/
def convEventCount (cid : JStr) (evs : List ServerEvent) : Nat :=
  evs.countP (isConvEvent cid)

/-- How many copies of the message with id `mid` one event carries: a
message event carries it directly, a conversation event carries it inside
its snapshot payload. -/
def msgWeight (mid : Nat) (e : ServerEvent) : Nat :=
  match e with
  | .message _ m => if m.id == mid then 1 else 0
  | .conversation c => c.messages.countP (fun m => m.id == mid)
  | _ => 0

/-- How many times the message with id `mid` has been delivered to a feed,
counting both message events and snapshot payloads. -/
def msgOccs (mid : Nat) (evs : List ServerEvent) : Nat :=
  (evs.map (msgWeight mid)).sum

/-- The message ids stored in one conversation. -/
def msgIds (c : Conversation) : List Nat :=
  c.messages.map (fun m => m.id)

/-- Every invariant the relay maintains that exactly-once delivery rests
on: conversation ids are unique, participant uid lists are duplicate-free,
message ids are globally unique and bounded by the counter, and each feed
has received each relevant conversation exactly once and each relevant
message exactly once (and nothing about conversations that do not exist or
messages not yet allocated). -/
structure StateInv (s : ServerState) : Prop where
  cidsNodup : (s.conversations.map (fun c => c.id)).Nodup
  partsNodup : ∀ c ∈ s.conversations, (participantUids c).Nodup
  msgIdBound : ∀ c ∈ s.conversations, ∀ m ∈ c.messages, m.id < s.nextMessageId
  msgIdsNodup : ((s.conversations.map msgIds).flatten).Nodup
  feedConvMem : ∀ f ∈ s.feeds, ∀ c ∈ s.conversations,
    f.uid ∈ participantUids c → convEventCount c.id f.delivered = 1
  feedConvAbsent : ∀ f ∈ s.feeds, ∀ cid,
    cid ∉ s.conversations.map (fun c => c.id) →
    convEventCount cid f.delivered = 0
  feedMsgMem : ∀ f ∈ s.feeds, ∀ c ∈ s.conversations,
    f.uid ∈ participantUids c → ∀ m ∈ c.messages,
    msgOccs m.id f.delivered = 1
  feedMsgFresh : ∀ f ∈ s.feeds, ∀ mid, s.nextMessageId ≤ mid →
    msgOccs mid f.delivered = 0

/-- Occurrence count of a key in a list (instance-stable counting). -/
def uidCount {α : Type} [BEq α] (u : α) (l : List α) : Nat :=
  l.countP (fun v => v == u)

/-- `find?` over a map that replaces every element satisfying `p` by a fixed
element that itself satisfies `p`: if some element satisfied `p`, the search
now returns the replacement. -/
theorem find?_map_if {α : Type} (p : α → Bool) (u' : α) (hu : p u' = true) :
    ∀ (l : List α), (l.find? p).isSome = true →
      (l.map (fun v => if p v then u' else v)).find? p = some u'
  | [], h => by simp [List.find?] at h
  | v :: rest, h => by
    by_cases hv : p v = true
    · simp [List.map_cons, hv, List.find?_cons_of_pos, hu]
    · have hv' : p v = false := by simp_all
      have h' : (rest.find? p).isSome = true := by
        rwa [List.find?_cons_of_neg _ (by simp [hv'])] at h
      simpa [List.map_cons, hv', List.find?_cons_of_neg]
        using find?_map_if p u' hu rest h'

/-- `saveUser` with a non-empty name always returns the record
`⟨uid, name⟩` and stores it under `uid`. -/
theorem getUser_saveUser (uid name : JStr) (s : ServerState)
    (hn : 0 < name.length) :
    (saveUser uid name s).1 = ⟨uid, name⟩ ∧
    getUser uid (saveUser uid name s).2 = some ⟨uid, name⟩ := by
  unfold saveUser
  cases hfind : getUser uid s with
  | none =>
    refine ⟨rfl, ?_⟩
    simp [getUser, List.find?_cons_of_pos]
  | some u =>
    have hsome : (s.users.find? (fun v => v.uid == uid)).isSome = true := by
      unfold getUser at hfind
      rw [hfind]
      rfl
    refine ⟨by simp [hn], ?_⟩
    simpa [hn, getUser] using
      find?_map_if (fun v : Identity => v.uid == uid) ⟨uid, name⟩ (by simp)
        s.users hsome

/-- The sanitized name is never empty. -/
theorem sanitizeName_length_pos (w : Option JStr) :
    0 < (sanitizeName w).length := by
  cases w with
  | none => simp [sanitizeName, anonymousName]
  | some v =>
    unfold sanitizeName
    by_cases hv : 0 < (jsTrim v).length
    · simp [hv]
    · simp [hv, anonymousName]

/-- `lexLe` is total. -/
theorem lexLe_total : ∀ a b : JStr, lexLe a b = true ∨ lexLe b a = true
  | [], _ => Or.inl rfl
  | _ :: _, [] => Or.inr rfl
  | a :: as, b :: bs => by
    rcases Nat.lt_trichotomy a b with h | h | h
    · left
      simp [lexLe, h]
    · subst h
      rcases lexLe_total as bs with h' | h'
      · left
        simp [lexLe, h']
      · right
        simp [lexLe, h']
    · right
      simp [lexLe, h]

/-- `lexLe` is antisymmetric. -/
theorem lexLe_antisymm : ∀ a b : JStr,
    lexLe a b = true → lexLe b a = true → a = b
  | [], [], _, _ => rfl
  | [], _ :: _, _, h2 => by simp [lexLe] at h2
  | _ :: _, [], h1, _ => by simp [lexLe] at h1
  | a :: as, b :: bs, h1, h2 => by
    rcases Nat.lt_trichotomy a b with h | h | h
    · rw [lexLe, if_neg (Nat.lt_asymm h), if_pos h] at h2
      exact absurd h2 (by simp)
    · subst h
      simp only [lexLe, lt_irrefl, if_neg, if_false] at h1 h2
      rw [lexLe_antisymm as bs h1 h2]
    · rw [lexLe, if_neg (Nat.lt_asymm h), if_pos h] at h1
      exact absurd h1 (by simp)

/-- The canonical conversation id is symmetric in the unordered pair. -/
theorem canonicalConversationId_comm (a b : JStr) :
    canonicalConversationId a b = canonicalConversationId b a := by
  unfold canonicalConversationId
  by_cases h1 : lexLe a b = true
  · by_cases h2 : lexLe b a = true
    · rw [lexLe_antisymm a b h1 h2]
    · simp [h1, h2]
  · have h2 : lexLe b a = true := (lexLe_total a b).resolve_left h1
    simp [h1, h2]

/-- `publishAll` only touches the feeds. -/
theorem publishAll_preserves (uids : List JStr) (e : ServerEvent) :
    ∀ s : ServerState,
      (publishAll uids e s).users = s.users ∧
      (publishAll uids e s).conversations = s.conversations ∧
      (publishAll uids e s).nextMessageId = s.nextMessageId := by
  induction uids with
  | nil =>
    intro s
    exact ⟨rfl, rfl, rfl⟩
  | cons u rest ih =>
    intro s
    simpa [publishAll, publish] using ih (publish u e s)

/-- C1: for distinct registered identities `a` and `b`, `connect(a,b)` and
`connect(b,a)` return conversations with the same id and the same
participant set, and repeating either call on the resulting state returns
the very same conversation and the very same state — no duplicate
conversation is created. -/
theorem connect_commutes_and_is_idempotent (a b : JStr) (now now' : Nat)
    (s : ServerState) (hab : a ≠ b)
    (ha : (getUser a s).isSome = true) (hb : (getUser b s).isSome = true) :
    ∃ c1 s1 c2 s2,
      ensureConversation a b now s = .ok (c1, s1) ∧
      ensureConversation b a now s = .ok (c2, s2) ∧
      c1.id = c2.id ∧
      (∀ x, x ∈ c1.participants ↔ x ∈ c2.participants) ∧
      ensureConversation a b now' s1 = .ok (c1, s1) ∧
      ensureConversation b a now' s1 = .ok (c1, s1) := by
  obtain ⟨ua, hua⟩ := Option.isSome_iff_exists.mp ha
  obtain ⟨ub, hub⟩ := Option.isSome_iff_exists.mp hb
  have hab1 : (a == b) = false := by
    simpa using hab
  have hab2 : (b == a) = false := by
    simpa using (Ne.symm hab)
  have hcomm := canonicalConversationId_comm a b
  cases hfind : findConversation (canonicalConversationId a b) s with
  | some c =>
    refine ⟨c, s, c, s, ?_, ?_, rfl, fun x => Iff.rfl, ?_, ?_⟩
    · simp [ensureConversation, hab1, hua, hub, hfind]
    · simp [ensureConversation, hab2, hua, hub, ← hcomm, hfind]
    · simp [ensureConversation, hab1, hua, hub, hfind]
    · simp [ensureConversation, hab2, hua, hub, ← hcomm, hfind]
  | none =>
    set cid := canonicalConversationId a b with hcid
    set cNew : Conversation := ⟨cid, [ua, ub], [], now⟩ with hc
    set sMid : ServerState := { s with conversations := cNew :: s.conversations }
      with hsMid
    set s1 : ServerState := publishAll [a, b] (.conversation cNew) sMid with hs1
    have hpres := publishAll_preserves [a, b] (.conversation cNew) sMid
    have husers : s1.users = s.users := by
      rw [← hs1] at hpres
      exact hpres.1
    have hconvs : s1.conversations = cNew :: s.conversations := by
      rw [← hs1] at hpres
      exact hpres.2.1
    have hua1 : getUser a s1 = some ua := by
      unfold getUser
      rw [husers]
      exact hua
    have hub1 : getUser b s1 = some ub := by
      unfold getUser
      rw [husers]
      exact hub
    have hfind1 : findConversation cid s1 = some cNew := by
      unfold findConversation
      rw [hconvs]
      simp [hc]
    set cNew2 : Conversation := ⟨cid, [ub, ua], [], now⟩ with hc2
    set sMid2 : ServerState := { s with conversations := cNew2 :: s.conversations }
      with hsMid2
    set s2 : ServerState := publishAll [b, a] (.conversation cNew2) sMid2 with hs2
    refine ⟨cNew, s1, cNew2, s2, ?_, ?_, rfl, ?_, ?_, ?_⟩
    · simp only [ensureConversation, hab1, hua, hub, ← hcid, hfind]
      rfl
    · simp only [ensureConversation, hab2, hua, hub, ← hcomm, ← hcid, hfind]
      rfl
    · intro x
      simp only [hc, List.mem_cons, List.mem_singleton]
      constructor
      · rintro (h | h | h) <;> simp [h]
      · rintro (h | h | h) <;> simp [h]
    · simp [ensureConversation, hab1, hua1, hub1, ← hcid, hfind1]
    · simp [ensureConversation, hab2, hua1, hub1, ← hcomm, ← hcid, hfind1]

/-- Witness for C1: in a state with identities "a" and "b" registered, the
two connect orders agree and repeat without duplication. -/
theorem connect_commutes_and_is_idempotent_witness :
    ([97] : JStr) ≠ [98] ∧
    (getUser [97] (saveUser [98] [66]
        (saveUser [97] [65] initialState).2).2).isSome = true ∧
    (getUser [98] (saveUser [98] [66]
        (saveUser [97] [65] initialState).2).2).isSome = true ∧
    (∃ c1 s1 c2 s2,
      ensureConversation [97] [98] 3 (saveUser [98] [66]
        (saveUser [97] [65] initialState).2).2 = .ok (c1, s1) ∧
      ensureConversation [98] [97] 3 (saveUser [98] [66]
        (saveUser [97] [65] initialState).2).2 = .ok (c2, s2) ∧
      c1.id = c2.id ∧
      (∀ x, x ∈ c1.participants ↔ x ∈ c2.participants) ∧
      ensureConversation [97] [98] 5 s1 = .ok (c1, s1) ∧
      ensureConversation [98] [97] 5 s1 = .ok (c1, s1)) :=
  ⟨by decide, by decide, by decide,
    connect_commutes_and_is_idempotent [97] [98] 3 5
      (saveUser [98] [66] (saveUser [97] [65] initialState).2).2
      (by decide) (by decide) (by decide)⟩

/-- C2: for every conversation id that does not name an existing
conversation, `appendMessage` (the store operation behind `sendMessage`)
fails with the `NotFound` error kind and no other kind, for every author,
text and clock value. -/
theorem sendMessage_unknown_conversation_notFound
    (cid : JStr) (author : Identity) (text : JStr) (now : Nat) (s : ServerState)
    (h : findConversation cid s = none) :
    appendMessage cid author text now s = .error .notFound := by
  unfold appendMessage
  rw [h]

/-- Witness for C2: in the initial state no conversation named "c" exists,
and appending there fails with `NotFound`. -/
theorem sendMessage_unknown_conversation_notFound_witness :
    findConversation [99] initialState = none ∧
    appendMessage [99] ⟨[97], [65]⟩ [104, 105] 7 initialState =
      .error .notFound :=
  ⟨by decide,
    sendMessage_unknown_conversation_notFound [99] ⟨[97], [65]⟩ [104, 105] 7
      initialState (by decide)⟩

/-- C5: a message route request whose text is empty or whitespace-only is
always rejected with status 400 (the route's encoding of
`InvalidArgument`), and the server state — in particular every
conversation's message list and `updatedAt` — is returned unchanged. -/
theorem sendMessage_blank_text_rejected
    (bodyCid bodyFrom : Option JStr) (t : JStr) (now : Nat) (s : ServerState)
    (h : jsTrim t = []) :
    messagePOST bodyCid bodyFrom (some t) now s = (.clientError 400, s) := by
  cases bodyCid with
  | none => rfl
  | some cid =>
    cases bodyFrom with
    | none => rfl
    | some fuid => simp [messagePOST, h]

/-- Witness for C5: a single space is whitespace-only and is rejected with
status 400, leaving the state unchanged. -/
theorem sendMessage_blank_text_rejected_witness :
    jsTrim [32] = [] ∧
    messagePOST (some [99]) (some [97]) (some [32]) 7 initialState =
      (.clientError 400, initialState) :=
  ⟨by decide,
    sendMessage_blank_text_rejected (some [99]) (some [97]) [32] 7
      initialState (by decide)⟩

/-- C6: renaming an identity id that is not in the registry fails with
`NotFound`, and the route leaves the state — in particular the registry —
unchanged, so the identity is not created. -/
theorem rename_unknown_identity_notFound (uid name : JStr)
    (bodyName : Option JStr) (s : ServerState) (h : getUser uid s = none) :
    renameParticipant uid name s = .error .notFound ∧
    userPUT (some uid) bodyName s = (.thrown .notFound, s) := by
  constructor
  · unfold renameParticipant
    rw [h]
  · simp [userPUT, renameParticipant, h]

/-- Witness for C6: the initial state has no identity "a"; renaming it
fails with `NotFound` and changes nothing. -/
theorem rename_unknown_identity_notFound_witness :
    getUser [97] initialState = none ∧
    renameParticipant [97] [65] initialState = .error .notFound ∧
    userPUT (some [97]) (some [65]) initialState =
      (.thrown .notFound, initialState) :=
  ⟨by decide,
    (rename_unknown_identity_notFound [97] [65] (some [65]) initialState
      (by decide)).1,
    (rename_unknown_identity_notFound [97] [65] (some [65]) initialState
      (by decide)).2⟩

/-- Appending a message whose timestamp dominates the list keeps the list
timestamp-sorted. -/
theorem tsSorted_append : ∀ (l : List Message) (m : Message),
    tsSorted l = true → (∀ x ∈ l, x.timestamp ≤ m.timestamp) →
    tsSorted (l ++ [m]) = true
  | [], _, _, _ => rfl
  | [a], m, _, hb => by
    simp [tsSorted, hb a (by simp)]
  | a :: b :: rest, m, hs, hb => by
    simp only [tsSorted, Bool.and_eq_true, decide_eq_true_eq] at hs
    have htail := tsSorted_append (b :: rest) m hs.2
      (fun x hx => hb x (List.mem_cons_of_mem a hx))
    simp only [List.cons_append, tsSorted, Bool.and_eq_true, decide_eq_true_eq]
    refine ⟨hs.1, ?_⟩
    simpa [List.cons_append] using htail

/-- Inversion of a successful `appendMessage`: the target conversation's
log grows by exactly the returned message, and well-formedness of all
conversations is preserved. -/
theorem appendMessage_ok_inv (cid : JStr) (u : Identity) (text : JStr)
    (now : Nat) (s : ServerState) (m : Message) (s' : ServerState)
    (h : appendMessage cid u text now s = .ok (m, s')) :
    convMessages cid s' = convMessages cid s ++ [m] ∧
    (ConvsWellFormed s → ConvsWellFormed s') := by
  unfold appendMessage at h
  split at h
  case h_1 => exact absurd h (by simp)
  case h_2 c hfind =>
    split at h
    · exact absurd h (by simp)
    · split at h
      · exact absurd h (by simp)
      · simp only [Except.ok.injEq, Prod.mk.injEq] at h
        obtain ⟨hm, hs'⟩ := h
        rw [hm] at hs'
        have hcidc : (c.id == cid) = true := by
          simpa using List.find?_some hfind
        have hmemc : c ∈ s.conversations := List.mem_of_find?_eq_some hfind
        have hmts : m.timestamp = max now c.updatedAt := by
          rw [← hm]
        have hconvs' : s'.conversations =
            s.conversations.map (fun d => if d.id == cid then
              { c with messages := c.messages ++ [m],
                       updatedAt := max now c.updatedAt } else d) := by
          rw [← hs', (publishAll_preserves _ _ _).2.1]
        have hfind' : findConversation cid s' =
            some { c with messages := c.messages ++ [m],
                          updatedAt := max now c.updatedAt } := by
          unfold findConversation
          rw [hconvs']
          refine find?_map_if (fun d : Conversation => d.id == cid) _
            (by simpa using hcidc) s.conversations ?_
          unfold findConversation at hfind
          rw [hfind]
          rfl
        constructor
        · simp [convMessages, hfind', hfind]
        · intro hwf d hd
          rw [hconvs'] at hd
          obtain ⟨d0, hd0, hmap⟩ := List.mem_map.mp hd
          by_cases hd0id : (d0.id == cid) = true
          · rw [if_pos hd0id] at hmap
            subst hmap
            have hcwf := hwf c hmemc
            simp only [convWellFormed, Bool.and_eq_true] at hcwf
            have hbound : ∀ x ∈ c.messages, x.timestamp ≤ c.updatedAt := by
              intro x hx
              simpa using (List.all_eq_true.mp hcwf.2) x hx
            simp only [convWellFormed, Bool.and_eq_true]
            constructor
            · refine tsSorted_append c.messages m hcwf.1 ?_
              intro x hx
              rw [hmts]
              exact le_trans (hbound x hx) (Nat.le_max_right _ _)
            · rw [List.all_eq_true]
              intro x hx
              rcases List.mem_append.mp hx with hx | hx
              · simpa using le_trans (hbound x hx) (Nat.le_max_right _ _)
              · have hxm : x = m := by simpa using hx
                subst hxm
                simp [hmts]
          · rw [if_neg hd0id] at hmap
            subst hmap
            exact hwf d0 hd0

/-- Reduction of the message route at present arguments. -/
theorem messagePOST_eq (cid fuid t : JStr) (now : Nat) (s : ServerState) :
    messagePOST (some cid) (some fuid) (some t) now s =
      (if ((jsTrim t).length == 0) = true then (.clientError 400, s)
       else
         match getUser fuid s with
         | none => (.clientError 404, s)
         | some user =>
           match appendMessage cid user ((jsTrim t).take 2000) now s with
           | .ok (m, s') => (.ok m, s')
           | .error _ => (.clientError 400, s)) := rfl

/-- Inversion of a successful message-route call. -/
theorem messagePOST_ok_inv (cid fuid t : JStr) (now : Nat) (s : ServerState)
    (m : Message) (s' : ServerState)
    (h : messagePOST (some cid) (some fuid) (some t) now s = (.ok m, s')) :
    ∃ u, getUser fuid s = some u ∧
      appendMessage cid u ((jsTrim t).take 2000) now s = .ok (m, s') := by
  rw [messagePOST_eq] at h
  split at h
  · exact absurd h (by simp)
  · split at h
    case h_1 => exact absurd h (by simp)
    case h_2 u hu =>
      split at h
      case h_2 e happ => exact absurd h (by simp)
      case h_1 m1 s1 happ =>
        simp only [Prod.mk.injEq, RouteResult.ok.injEq] at h
        refine ⟨u, hu, ?_⟩
        rw [happ, h.1, h.2]

/-- A message-route call that does not succeed leaves the state unchanged. -/
theorem messagePOST_not_ok_state (bc bf bt : Option JStr) (now : Nat)
    (s : ServerState) (r : RouteResult Message) (s' : ServerState)
    (h : messagePOST bc bf bt now s = (r, s'))
    (hr : ∀ m, r ≠ .ok m) : s' = s := by
  cases bc with
  | none =>
    cases bf <;> cases bt <;>
      · simp only [messagePOST, Prod.mk.injEq] at h
        exact h.2.symm
  | some cid =>
    cases bf with
    | none =>
      cases bt <;>
        · simp only [messagePOST, Prod.mk.injEq] at h
          exact h.2.symm
    | some fuid =>
      have hbt : messagePOST (some cid) (some fuid) bt now s =
          messagePOST (some cid) (some fuid)
            (some (match bt with | some v => v | none => [])) now s := by
        cases bt with
        | none => simp [messagePOST, jsTrim]
        | some v => rfl
      rw [hbt, messagePOST_eq] at h
      split at h
      · simp only [Prod.mk.injEq] at h
        exact h.2.symm
      · split at h
        · simp only [Prod.mk.injEq] at h
          exact h.2.symm
        · split at h
          · simp only [Prod.mk.injEq] at h
            exact absurd h.1.symm (hr _)
          · simp only [Prod.mk.injEq] at h
            exact h.2.symm

/-- A well-formed state has a timestamp-sorted log for every name. -/
theorem tsSorted_convMessages (cid : JStr) (s : ServerState)
    (hwf : ConvsWellFormed s) : tsSorted (convMessages cid s) = true := by
  unfold convMessages
  cases hfind : findConversation cid s with
  | none => rfl
  | some c =>
    have hc : c ∈ s.conversations := List.mem_of_find?_eq_some hfind
    have := hwf c hc
    rw [convWellFormed, Bool.and_eq_true] at this
    exact this.1

/-- C3: over any sequence of message-route requests against a conversation,
starting from a well-formed state, the stored messages keep non-decreasing
timestamps (append order is preserved) and the log grows by exactly one
entry per successful call. -/
theorem sendMessage_sequence_append_order (cid : JStr) (reqs : List SendReq)
    (s : ServerState) (hwf : ConvsWellFormed s) :
    tsSorted (convMessages cid (runSends cid s reqs).1) = true ∧
    (convMessages cid (runSends cid s reqs).1).length =
      (convMessages cid s).length + (runSends cid s reqs).2 := by
  induction reqs generalizing s with
  | nil =>
    exact ⟨tsSorted_convMessages cid s hwf, rfl⟩
  | cons r rest ih =>
    rcases hstep : messagePOST (some cid) (some r.fromUid) (some r.text) r.now s
      with ⟨res, s'⟩
    cases res with
    | ok m =>
      obtain ⟨u, _, happ⟩ := messagePOST_ok_inv _ _ _ _ _ _ _ hstep
      obtain ⟨hgrow, hwf'⟩ := appendMessage_ok_inv _ _ _ _ _ _ _ happ
      have ihr := ih s' (hwf' hwf)
      rw [runSends, hstep]
      refine ⟨ihr.1, ?_⟩
      rw [ihr.2, hgrow]
      simp [Nat.add_assoc, Nat.add_comm 1]
    | clientError st =>
      have hss : s' = s := messagePOST_not_ok_state _ _ _ _ _ _ _ hstep (by simp)
      subst hss
      have ihr := ih s' hwf
      rw [runSends, hstep]
      exact ihr
    | thrown e =>
      have hss : s' = s := messagePOST_not_ok_state _ _ _ _ _ _ _ hstep (by simp)
      subst hss
      have ihr := ih s' hwf
      rw [runSends, hstep]
      exact ihr

/-- Witness for C3: from a state with users "a", "b" and their
conversation, two sends and one blank (failing) send give a sorted log
that grew by exactly two. -/
theorem sendMessage_sequence_append_order_witness :
    ConvsWellFormed (run initialState
      [.register (some [97]) (some [65]), .register (some [98]) (some [66]),
       .connect (some [97]) (some [98]) 1]) ∧
    (tsSorted (convMessages [97, 58, 58, 98]
        (runSends [97, 58, 58, 98]
          (run initialState
            [.register (some [97]) (some [65]), .register (some [98]) (some [66]),
             .connect (some [97]) (some [98]) 1])
          [⟨[97], [104, 105], 2⟩, ⟨[98], [32], 3⟩, ⟨[98], [121, 111], 4⟩]).1)
        = true ∧
      (convMessages [97, 58, 58, 98]
        (runSends [97, 58, 58, 98]
          (run initialState
            [.register (some [97]) (some [65]), .register (some [98]) (some [66]),
             .connect (some [97]) (some [98]) 1])
          [⟨[97], [104, 105], 2⟩, ⟨[98], [32], 3⟩, ⟨[98], [121, 111], 4⟩]).1).length =
      (convMessages [97, 58, 58, 98]
        (run initialState
          [.register (some [97]) (some [65]), .register (some [98]) (some [66]),
           .connect (some [97]) (some [98]) 1])).length +
      (runSends [97, 58, 58, 98]
        (run initialState
          [.register (some [97]) (some [65]), .register (some [98]) (some [66]),
           .connect (some [97]) (some [98]) 1])
        [⟨[97], [104, 105], 2⟩, ⟨[98], [32], 3⟩, ⟨[98], [121, 111], 4⟩]).2) :=
  ⟨by decide,
    sendMessage_sequence_append_order [97, 58, 58, 98]
      [⟨[97], [104, 105], 2⟩, ⟨[98], [32], 3⟩, ⟨[98], [121, 111], 4⟩]
      (run initialState
        [.register (some [97]) (some [65]), .register (some [98]) (some [66]),
         .connect (some [97]) (some [98]) 1])
      (by decide)⟩

/-- The head of a `dropWhile` result does not satisfy the predicate. -/
theorem dropWhile_head_false (p : Nat → Bool) :
    ∀ (l : List Nat) (c : Nat) (rest : List Nat),
      l.dropWhile p = c :: rest → p c = false
  | [], c, rest, h => by simp [List.dropWhile] at h
  | a :: l, c, rest, h => by
    rw [List.dropWhile_cons] at h
    by_cases ha : p a = true
    · rw [if_pos ha] at h
      exact dropWhile_head_false p l c rest h
    · have ha' : p a = false := by simp_all
      rw [if_neg (by simp [ha'])] at h
      cases h
      exact ha'

/-- A nonempty trimmed string begins with a non-whitespace unit. -/
theorem jsTrim_head_false (l : List Nat) (c : Nat) (rest : List Nat)
    (h : jsTrim l = c :: rest) : isJsWs c = false := by
  unfold jsTrim at h
  obtain ⟨t, ht⟩ := List.dropWhile_suffix
    (l := (l.dropWhile isJsWs).reverse) isJsWs
  have h2 : (l.dropWhile isJsWs).reverse.dropWhile isJsWs =
      (c :: rest).reverse := by
    rw [← h, List.reverse_reverse]
  rw [h2] at ht
  have h3 : l.dropWhile isJsWs = c :: (rest ++ t.reverse) := by
    have := congrArg List.reverse ht
    simpa [List.reverse_append] using this.symm
  exact dropWhile_head_false isJsWs l c (rest ++ t.reverse) h3

/-- Trimming a string that begins with a non-whitespace unit cannot yield
the empty string. -/
theorem jsTrim_cons_ne_nil (c : Nat) (l : List Nat) (hc : isJsWs c = false) :
    jsTrim (c :: l) ≠ [] := by
  unfold jsTrim
  rw [List.dropWhile_cons, if_neg (by simp [hc])]
  intro hcontra
  rw [List.reverse_eq_nil_iff, List.dropWhile_eq_nil_iff] at hcontra
  have hmem := hcontra c (by simp)
  rw [hc] at hmem
  exact absurd hmem (by simp)

/-- `dropWhile` is the identity on a list whose head fails the predicate. -/
theorem dropWhile_cons_false (p : Nat → Bool) (a : Nat) (l : List Nat)
    (ha : p a = false) : List.dropWhile p (a :: l) = a :: l := by
  rw [List.dropWhile_cons, if_neg (by simp [ha])]

/-- Prefixing a non-surrogate unit does not affect UTF-16 well-formedness. -/
theorem wellFormedUtf16_cons (c : Nat) (l : List Nat)
    (hc1 : isHighSurrogate c = false) (hc2 : isLowSurrogate c = false) :
    wellFormedUtf16 (c :: l) = wellFormedUtf16 l := by
  cases l with
  | nil => simp [wellFormedUtf16, hc1, hc2]
  | cons c2 rest => simp [wellFormedUtf16, hc1, hc2]

/-- A block of "a" units does not affect UTF-16 well-formedness. -/
theorem wellFormedUtf16_replicate (l : List Nat) : ∀ n : Nat,
    wellFormedUtf16 (List.replicate n 97 ++ l) = wellFormedUtf16 l
  | 0 => rfl
  | n + 1 => by
    rw [List.replicate_succ, List.cons_append,
      wellFormedUtf16_cons 97 _ (by decide) (by decide)]
    exact wellFormedUtf16_replicate l n

/-- The counterexample text is its own trim. -/
theorem jsTrim_surrogateSplitText : jsTrim surrogateSplitText = surrogateSplitText := by
  unfold jsTrim surrogateSplitText
  have h1 : List.dropWhile isJsWs (List.replicate 1999 97 ++ [0xD83D, 0xDE00]) =
      List.replicate 1999 97 ++ [0xD83D, 0xDE00] := by
    rw [show (1999 : Nat) = 1998 + 1 from rfl, List.replicate_succ,
      List.cons_append, dropWhile_cons_false _ _ _ (by decide)]
  have h2 : (List.replicate 1999 97 ++ [0xD83D, 0xDE00]).reverse =
      0xDE00 :: 0xD83D :: List.replicate 1999 97 := by
    rw [List.reverse_append, List.reverse_replicate]
    rfl
  rw [h1, h2, dropWhile_cons_false _ _ _ (by decide), ← h2,
    List.reverse_reverse]

/-- The counterexample text is well-formed UTF-16. -/
theorem wellFormedUtf16_surrogateSplitText :
    wellFormedUtf16 surrogateSplitText = true := by
  unfold surrogateSplitText
  rw [wellFormedUtf16_replicate]
  decide

/-- The counterexample text has 2001 code units. -/
theorem surrogateSplitText_length : surrogateSplitText.length = 2001 := by
  unfold surrogateSplitText
  rw [List.length_append, List.length_replicate]
  rfl

/-- Truncating the counterexample text to 2000 units cuts between the two
surrogates and so is not well-formed UTF-16. -/
theorem wellFormedUtf16_surrogateSplitText_take :
    wellFormedUtf16 (surrogateSplitText.take 2000) = false := by
  unfold surrogateSplitText
  have htake : (List.replicate 1999 97 ++ [0xD83D, 0xDE00]).take 2000 =
      List.replicate 1999 97 ++ [0xD83D] := by
    rw [show (2000 : Nat) = (List.replicate 1999 (97 : Nat)).length + 1 by
        rw [List.length_replicate], List.take_append]
    rfl
  rw [htake, wellFormedUtf16_replicate]
  decide

/-- Re-trimming the 2000-unit truncation of a long trimmed text cannot be
empty. -/
theorem jsTrim_take_ne_nil (t : JStr) (h : 2000 < (jsTrim t).length) :
    jsTrim ((jsTrim t).take 2000) ≠ [] := by
  cases htr : jsTrim t with
  | nil =>
    rw [htr] at h
    simp at h
  | cons c rest =>
    have hc : isJsWs c = false := jsTrim_head_false t c rest htr
    have htake : (c :: rest).take 2000 = c :: rest.take 1999 := rfl
    rw [htake]
    exact jsTrim_cons_ne_nil c _ hc

/-- C10: a message whose trimmed text exceeds 2000 UTF-16 code units is not
rejected — the route succeeds and stores the trimmed text truncated to its
first 2000 code units; moreover such a truncation can split a surrogate
pair, so the stored text need not be well-formed UTF-16. -/
theorem long_text_truncated_not_rejected (cid fuid t : JStr) (now : Nat)
    (s : ServerState) (c : Conversation) (u : Identity)
    (hc : findConversation cid s = some c)
    (hu : getUser fuid s = some u)
    (hpart : (participantUids c).contains u.uid = true)
    (hlong : 2000 < (jsTrim t).length) :
    (∃ m s', messagePOST (some cid) (some fuid) (some t) now s = (.ok m, s') ∧
      m.text = (jsTrim t).take 2000 ∧
      convMessages cid s' = convMessages cid s ++ [m]) ∧
    (∃ bad : JStr, jsTrim bad = bad ∧ wellFormedUtf16 bad = true ∧
      2000 < bad.length ∧ wellFormedUtf16 (bad.take 2000) = false) := by
  have htne := jsTrim_take_ne_nil t hlong
  have htrimfalse : ((jsTrim ((jsTrim t).take 2000)).length == 0) = false := by
    simpa [beq_eq_false_iff_ne, List.length_eq_zero] using htne
  have hmem : u.uid ∈ participantUids c := by
    simpa using hpart
  have hpartf : (!(participantUids c).contains u.uid) = false := by
    simp [hmem]
  have hlenfalse : (((jsTrim t).length == 0) = false) := by
    have hne : (jsTrim t).length ≠ 0 := by omega
    simpa [beq_eq_false_iff_ne] using hne
  have happ_eq : appendMessage cid u ((jsTrim t).take 2000) now s =
      .ok (⟨s.nextMessageId, cid, some u.uid, (jsTrim t).take 2000, .message,
            max now c.updatedAt⟩,
        publishAll (participantUids c)
          (.message cid ⟨s.nextMessageId, cid, some u.uid,
            (jsTrim t).take 2000, .message, max now c.updatedAt⟩)
          { s with
            conversations := s.conversations.map (fun d => if d.id == cid then
              { c with
                messages := c.messages ++ [⟨s.nextMessageId, cid, some u.uid,
                  (jsTrim t).take 2000, .message, max now c.updatedAt⟩],
                updatedAt := max now c.updatedAt } else d),
            nextMessageId := s.nextMessageId + 1 }) := by
    simp [appendMessage, hc, htrimfalse, hmem]
  constructor
  · refine ⟨_, _, ?_, rfl, (appendMessage_ok_inv _ _ _ _ _ _ _ happ_eq).1⟩
    rw [messagePOST_eq]
    simp [hlenfalse, hu, happ_eq]
  · refine ⟨surrogateSplitText, jsTrim_surrogateSplitText,
      wellFormedUtf16_surrogateSplitText, ?_,
      ?_⟩
    · rw [surrogateSplitText_length]
      omega
    · exact wellFormedUtf16_surrogateSplitText_take

/-- The witness text: 2001 copies of "h", already trimmed. -/
theorem jsTrim_longText :
    jsTrim (List.replicate 2001 104) = List.replicate 2001 104 := by
  unfold jsTrim
  have h1 : List.dropWhile isJsWs (List.replicate 2001 104) =
      List.replicate 2001 104 := by
    rw [show (2001 : Nat) = 2000 + 1 from rfl, List.replicate_succ,
      dropWhile_cons_false _ _ _ (by decide)]
  rw [h1, List.reverse_replicate, h1, List.reverse_replicate]

/-- Witness for C10: in a state with users "a", "b" and their conversation,
a 2001-character text is accepted and truncated. -/
theorem long_text_truncated_not_rejected_witness :
    (findConversation [97, 58, 58, 98]
        (run initialState
          [.register (some [97]) (some [65]), .register (some [98]) (some [66]),
           .connect (some [97]) (some [98]) 1])).isSome = true ∧
    2000 < (jsTrim (List.replicate 2001 104)).length ∧
    ((∃ m s', messagePOST (some [97, 58, 58, 98]) (some [97])
        (some (List.replicate 2001 104)) 2
        (run initialState
          [.register (some [97]) (some [65]), .register (some [98]) (some [66]),
           .connect (some [97]) (some [98]) 1]) = (.ok m, s') ∧
      m.text = (jsTrim (List.replicate 2001 104)).take 2000 ∧
      convMessages [97, 58, 58, 98] s' =
        convMessages [97, 58, 58, 98]
          (run initialState
            [.register (some [97]) (some [65]), .register (some [98]) (some [66]),
             .connect (some [97]) (some [98]) 1]) ++ [m]) ∧
    (∃ bad : JStr, jsTrim bad = bad ∧ wellFormedUtf16 bad = true ∧
      2000 < bad.length ∧ wellFormedUtf16 (bad.take 2000) = false)) :=
  ⟨by decide,
    by rw [jsTrim_longText, List.length_replicate]; omega,
    long_text_truncated_not_rejected [97, 58, 58, 98] [97]
      (List.replicate 2001 104) 2
      (run initialState
        [.register (some [97]) (some [65]), .register (some [98]) (some [66]),
         .connect (some [97]) (some [98]) 1])
      ⟨[97, 58, 58, 98],
        [⟨[97], [65]⟩, ⟨[98], [66]⟩], [], 1⟩
      ⟨[97], [65]⟩ (by decide) (by decide) (by decide)
      (by rw [jsTrim_longText, List.length_replicate]; omega)⟩

theorem FeedExt_refl (f : Feed) : FeedExt f f :=
  ⟨rfl, [], by simp, by simp⟩

theorem FeedExt_trans {f g h : Feed} (h1 : FeedExt f g) (h2 : FeedExt g h) :
    FeedExt f h := by
  obtain ⟨hu1, e1, hd1, hh1⟩ := h1
  obtain ⟨hu2, e2, hd2, hh2⟩ := h2
  refine ⟨hu2.trans hu1, e1 ++ e2, by rw [hd2, hd1, List.append_assoc], ?_⟩
  intro u hm
  rcases List.mem_append.mp hm with hm | hm
  exacts [hh1 u hm, hh2 u hm]

theorem pushToFeed_pushLike (u : JStr) (e : ServerEvent)
    (he : ∀ v, e ≠ .hello v) : PushLike (pushToFeed u e) := by
  intro f
  unfold pushToFeed
  split
  · exact ⟨rfl, [e], rfl, fun v hv => he v ((List.mem_singleton.mp hv).symm)⟩
  · exact FeedExt_refl f

/-- `publishAll` with a hello-free event acts on feeds as a push-like map. -/
theorem publishAll_feeds (e : ServerEvent) (he : ∀ v, e ≠ .hello v) :
    ∀ (uids : List JStr) (s : ServerState),
      ∃ g : Feed → Feed, (publishAll uids e s).feeds = s.feeds.map g ∧
        PushLike g
  | [], _ => ⟨id, by simp [publishAll], fun f => FeedExt_refl f⟩
  | u :: rest, s => by
    obtain ⟨g, hg, hpl⟩ := publishAll_feeds e he rest (publish u e s)
    refine ⟨g ∘ pushToFeed u e, ?_, ?_⟩
    · show (publishAll (u :: rest) e s).feeds = _
      rw [publishAll, hg, show (publish u e s).feeds =
        s.feeds.map (pushToFeed u e) from rfl, List.map_map]
    · intro f
      exact FeedExt_trans (pushToFeed_pushLike u e he f) (hpl (pushToFeed u e f))

/-- Variant of `publishAll_feeds` phrased on an equation, for use inside
inversion proofs. -/
theorem publishAll_feeds_of_eq (uids : List JStr) (e : ServerEvent)
    (he : ∀ v, e ≠ .hello v) (s2 sOut : ServerState) (fs : List Feed)
    (hout : publishAll uids e s2 = sOut) (hfs : s2.feeds = fs) :
    ∃ g : Feed → Feed, sOut.feeds = fs.map g ∧ PushLike g := by
  obtain ⟨g, hg, hpl⟩ := publishAll_feeds e he uids s2
  refine ⟨g, ?_, hpl⟩
  rw [← hout, hg, hfs]

/-- `saveUser` never touches feeds. -/
theorem saveUser_feeds (uid name : JStr) (s : ServerState) :
    (saveUser uid name s).2.feeds = s.feeds := by
  unfold saveUser
  split
  · rfl
  · split
    · rfl
    · rfl

/-- The user-registration route never touches feeds. -/
theorem userPOST_feeds (bu bn : Option JStr) (s : ServerState) :
    (userPOST bu bn s).2.feeds = s.feeds := by
  unfold userPOST
  split
  · rfl
  · exact saveUser_feeds _ _ _

/-- The rename route acts on feeds as a push-like map. -/
theorem userPUT_feeds (bu bn : Option JStr) (s : ServerState) :
    ∃ g : Feed → Feed, (userPUT bu bn s).2.feeds = s.feeds.map g ∧
      PushLike g := by
  cases bu with
  | none => exact ⟨id, by simp [userPUT], fun f => FeedExt_refl f⟩
  | some uid =>
    cases hrp : renameParticipant uid (sanitizeName bn) s with
    | error e =>
      refine ⟨id, ?_, fun f => FeedExt_refl f⟩
      simp [userPUT, hrp]
    | ok p =>
      obtain ⟨u, s'⟩ := p
      have hrp' := hrp
      unfold renameParticipant at hrp'
      split at hrp'
      · exact absurd hrp' (by simp)
      · simp only [Except.ok.injEq, Prod.mk.injEq] at hrp'
        obtain ⟨_, hs'⟩ := hrp'
        refine ⟨pushToFeed uid (.user uid (sanitizeName bn)), ?_,
          pushToFeed_pushLike _ _ (by intro v; simp)⟩
        have hfeeds : s'.feeds =
            s.feeds.map (pushToFeed uid (.user uid (sanitizeName bn))) := by
          rw [← hs']
          rfl
        simp [userPUT, hrp, hfeeds]

/-- The connect route acts on feeds as a push-like map. -/
theorem connectPOST_feeds (bf bt : Option JStr) (now : Nat) (s : ServerState) :
    ∃ g : Feed → Feed, (connectPOST bf bt now s).2.feeds = s.feeds.map g ∧
      PushLike g := by
  cases bf with
  | none => exact ⟨id, by simp [connectPOST], fun f => FeedExt_refl f⟩
  | some fuid =>
    cases bt with
    | none => exact ⟨id, by simp [connectPOST], fun f => FeedExt_refl f⟩
    | some tuid =>
      cases hec : ensureConversation fuid tuid now s with
      | error e =>
        refine ⟨id, ?_, fun f => FeedExt_refl f⟩
        simp [connectPOST, hec]
      | ok p =>
        obtain ⟨c, s'⟩ := p
        have hec' := hec
        unfold ensureConversation at hec'
        split at hec'
        · exact absurd hec' (by simp)
        · split at hec'
          case h_2 => exact absurd hec' (by simp)
          case h_1 uFrom uTo hf ht =>
            cases hfc : findConversation (canonicalConversationId fuid tuid) s
              with
            | some c0 =>
              simp only [hfc, Except.ok.injEq, Prod.mk.injEq] at hec'
              refine ⟨id, ?_, fun f => FeedExt_refl f⟩
              rw [show (connectPOST (some fuid) (some tuid) now s).2 = s' by
                simp [connectPOST, hec], ← hec'.2]
              simp
            | none =>
              simp only [hfc, Except.ok.injEq, Prod.mk.injEq] at hec'
              obtain ⟨g, hg, hpl⟩ := publishAll_feeds_of_eq _ _
                (by intro v; simp) _ _ s.feeds hec'.2 rfl
              refine ⟨g, ?_, hpl⟩
              rw [show (connectPOST (some fuid) (some tuid) now s).2 = s' by
                simp [connectPOST, hec]]
              exact hg

/-- A successful `appendMessage` acts on feeds as a push-like map. -/
theorem appendMessage_ok_feeds (cid : JStr) (u : Identity) (text : JStr)
    (now : Nat) (s : ServerState) (m : Message) (s' : ServerState)
    (h : appendMessage cid u text now s = .ok (m, s')) :
    ∃ g : Feed → Feed, s'.feeds = s.feeds.map g ∧ PushLike g := by
  unfold appendMessage at h
  split at h
  case h_1 => exact absurd h (by simp)
  case h_2 c hfind =>
    split at h
    · exact absurd h (by simp)
    · split at h
      · exact absurd h (by simp)
      · simp only [Except.ok.injEq, Prod.mk.injEq] at h
        obtain ⟨hm, hs'⟩ := h
        exact publishAll_feeds_of_eq _ _ (by intro v; simp) _ _ s.feeds hs' rfl

/-- The message route acts on feeds as a push-like map. -/
theorem messagePOST_feeds (bc bf bt : Option JStr) (now : Nat)
    (s : ServerState) :
    ∃ g : Feed → Feed, (messagePOST bc bf bt now s).2.feeds = s.feeds.map g ∧
      PushLike g := by
  rcases hstep : messagePOST bc bf bt now s with ⟨res, s2⟩
  cases res with
  | ok m =>
    cases bc with
    | none => exact absurd hstep (by simp [messagePOST])
    | some cid =>
      cases bf with
      | none => exact absurd hstep (by simp [messagePOST])
      | some fuid =>
        cases bt with
        | none => exact absurd hstep (by simp [messagePOST, jsTrim])
        | some t =>
          obtain ⟨u, _, happ⟩ := messagePOST_ok_inv _ _ _ _ _ _ _ hstep
          obtain ⟨g, hg, hpl⟩ := appendMessage_ok_feeds _ _ _ _ _ _ _ happ
          exact ⟨g, hg, hpl⟩
  | clientError st =>
    have := messagePOST_not_ok_state _ _ _ _ _ _ _ hstep (by simp)
    subst this
    exact ⟨id, by simp, fun f => FeedExt_refl f⟩
  | thrown e =>
    have := messagePOST_not_ok_state _ _ _ _ _ _ _ hstep (by simp)
    subst this
    exact ⟨id, by simp, fun f => FeedExt_refl f⟩

/-- One client operation maps existing feeds push-like and possibly appends
new feeds at the end. -/
theorem step_feeds (s : ServerState) (op : ClientOp) :
    ∃ (g : Feed → Feed) (tail : List Feed),
      (step s op).feeds = s.feeds.map g ++ tail ∧ PushLike g := by
  cases op with
  | register bu bn =>
    refine ⟨id, [], ?_, fun f => FeedExt_refl f⟩
    simp [step, userPOST_feeds]
  | rename bu bn =>
    obtain ⟨g, hg, hp⟩ := userPUT_feeds bu bn s
    refine ⟨g, [], ?_, hp⟩
    simp [step, hg]
  | connect bf bt now =>
    obtain ⟨g, hg, hp⟩ := connectPOST_feeds bf bt now s
    refine ⟨g, [], ?_, hp⟩
    simp [step, hg]
  | send bc bf bt now =>
    obtain ⟨g, hg, hp⟩ := messagePOST_feeds bc bf bt now s
    refine ⟨g, [], ?_, hp⟩
    simp [step, hg]
  | subscribe uid =>
    refine ⟨id, [⟨uid, .hello uid :: snapshotEvents uid s⟩], ?_,
      fun f => FeedExt_refl f⟩
    simp [step, openFeed]

/-- A whole run maps existing feeds push-like and appends new feeds. -/
theorem run_feeds : ∀ (ops : List ClientOp) (s : ServerState),
    ∃ (g : Feed → Feed) (tail : List Feed),
      (run s ops).feeds = s.feeds.map g ++ tail ∧ PushLike g
  | [], s => ⟨id, [], by simp [run], fun f => FeedExt_refl f⟩
  | op :: ops, s => by
    obtain ⟨g1, t1, h1, hp1⟩ := step_feeds s op
    obtain ⟨g2, t2, h2, hp2⟩ := run_feeds ops (step s op)
    refine ⟨g2 ∘ g1, t1.map g2 ++ t2, ?_,
      fun f => FeedExt_trans (hp1 f) (hp2 (g1 f))⟩
    rw [show run s (op :: ops) = run (step s op) ops from rfl, h2, h1,
      List.map_append, List.map_map, List.append_assoc]

/-- C4: a live feed opened after a history `pre` of operations first holds
exactly one hello event, then one conversation event per conversation the
identity participates in at open time, and every event from later
operations comes after those; no later event is a hello, so the hello is
unique. -/
theorem live_feed_initial_sync (pre post : List ClientOp) (uid : JStr) :
    ∃ f rest,
      f ∈ (run initialState (pre ++ ClientOp.subscribe uid :: post)).feeds ∧
      f.uid = uid ∧
      f.delivered = ServerEvent.hello uid ::
        ((listConversationsForUser uid (run initialState pre)).map
          ServerEvent.conversation ++ rest) ∧
      (∀ u, ServerEvent.hello u ∉ rest) ∧
      (∀ c, c ∈ listConversationsForUser uid (run initialState pre) ↔
        (c ∈ (run initialState pre).conversations ∧
          uid ∈ participantUids c)) := by
  have hsplit : run initialState (pre ++ ClientOp.subscribe uid :: post) =
      run (step (run initialState pre) (ClientOp.subscribe uid)) post := by
    rw [run, List.foldl_append]
    rfl
  obtain ⟨g, tail, hfeeds, hpush⟩ :=
    run_feeds post (step (run initialState pre) (.subscribe uid))
  obtain ⟨huid, ext, hdel, hhello⟩ :=
    hpush ⟨uid, .hello uid :: snapshotEvents uid (run initialState pre)⟩
  refine ⟨g ⟨uid, .hello uid :: snapshotEvents uid (run initialState pre)⟩,
    ext, ?_, huid, ?_, hhello, ?_⟩
  · rw [hsplit, hfeeds]
    refine List.mem_append.mpr (Or.inl ?_)
    refine List.mem_map.mpr ⟨_, ?_, rfl⟩
    show _ ∈ (step (run initialState pre) (ClientOp.subscribe uid)).feeds
    simp [step, openFeed]
  · rw [hdel]
    rfl
  · intro c
    simp [listConversationsForUser, List.mem_filter]

/-- C8: for every name input the user route stores (and returns, with no
error condition) a display name equal to the trimmed input truncated to 48
code units, or "Anonymous" when the input is missing/not a string or blank
after trimming; the stored name never exceeds 48 code units. -/
theorem register_sanitizes_and_stores_name (s : ServerState) (uid v : JStr) :
    (userPOST (some uid) (some v) s).1 =
      .ok ⟨uid, sanitizeName (some v)⟩ ∧
    getUser uid (userPOST (some uid) (some v) s).2 =
      some ⟨uid, sanitizeName (some v)⟩ ∧
    getUser uid (userPOST (some uid) none s).2 =
      some ⟨uid, anonymousName⟩ ∧
    sanitizeName (some v) =
      (if jsTrim v = [] then anonymousName else (jsTrim v).take 48) ∧
    (sanitizeName (some v)).length ≤ 48 := by
  have hsome := getUser_saveUser uid (sanitizeName (some v)) s
    (sanitizeName_length_pos (some v))
  have hnone := getUser_saveUser uid (sanitizeName none) s
    (sanitizeName_length_pos none)
  refine ⟨?_, ?_, ?_, ?_, ?_⟩
  · simp [userPOST, hsome.1]
  · simpa [userPOST] using hsome.2
  · simpa [userPOST, sanitizeName] using hnone.2
  · unfold sanitizeName
    by_cases hv : jsTrim v = []
    · simp [hv]
    · simp [hv, List.length_pos.mpr hv]
  · unfold sanitizeName
    by_cases hv : 0 < (jsTrim v).length
    · simp [hv]
    · simp [hv, anonymousName]

/-- C9 counterexample: identity "a" is registered with display name
"Alpha"; a registration request for "a" whose name is a single space
(blank after trimming) does not leave the stored display name unchanged —
it overwrites it with "Anonymous". -/
theorem register_blank_name_overwrites_existing :
    getUser [97] (userPOST (some [97]) (some [32])
        (saveUser [97] [65, 108, 112, 104, 97] initialState).2).2 =
      some ⟨[97], anonymousName⟩ ∧
    anonymousName ≠ [65, 108, 112, 104, 97] := by
  decide

/-- C9 amended: for an existing identity, a registration request with a
blank (empty after trimming) name sets the stored display name to
"Anonymous" — the route sanitizes a blank name to "Anonymous" before the
store's non-empty check, so the update is always applied. -/
theorem register_blank_name_sets_anonymous (s : ServerState) (uid t : JStr)
    (_hexists : (getUser uid s).isSome = true) (hblank : jsTrim t = []) :
    getUser uid (userPOST (some uid) (some t) s).2 =
      some ⟨uid, anonymousName⟩ := by
  have hsan : sanitizeName (some t) = anonymousName := by
    simp [sanitizeName, hblank]
  have h := (getUser_saveUser uid (sanitizeName (some t)) s
    (sanitizeName_length_pos (some t))).2
  rw [hsan] at h
  simpa [userPOST, hsan] using h

/-- Witness for C9's amended statement: identity "a" exists with name
"Alpha"; a blank registration sets the stored name to "Anonymous". -/
theorem register_blank_name_sets_anonymous_witness :
    ((getUser [97]
        (saveUser [97] [65, 108, 112, 104, 97] initialState).2).isSome = true) ∧
    jsTrim [32] = [] ∧
    getUser [97] (userPOST (some [97]) (some [32])
        (saveUser [97] [65, 108, 112, 104, 97] initialState).2).2 =
      some ⟨[97], anonymousName⟩ :=
  ⟨by decide, by decide,
    register_blank_name_sets_anonymous
      (saveUser [97] [65, 108, 112, 104, 97] initialState).2 [97] [32]
      (by decide) (by decide)⟩

theorem convEventCount_append (cid : JStr) (evs1 evs2 : List ServerEvent) :
    convEventCount cid (evs1 ++ evs2) =
      convEventCount cid evs1 + convEventCount cid evs2 := by
  unfold convEventCount
  rw [List.countP_append]

theorem msgOccs_append (mid : Nat) (evs1 evs2 : List ServerEvent) :
    msgOccs mid (evs1 ++ evs2) = msgOccs mid evs1 + msgOccs mid evs2 := by
  unfold msgOccs
  rw [List.map_append, List.sum_append]

theorem convEventCount_replicate (cid : JStr) (e : ServerEvent) (n : Nat) :
    convEventCount cid (List.replicate n e) =
      n * (if isConvEvent cid e then 1 else 0) := by
  induction n with
  | zero => simp [convEventCount]
  | succ k ih =>
    rw [List.replicate_succ]
    unfold convEventCount at ih ⊢
    rw [List.countP_cons, ih]
    cases hise : isConvEvent cid e with
    | false => simp [hise]
    | true => simp [hise]

theorem msgOccs_replicate (mid : Nat) (e : ServerEvent) (n : Nat) :
    msgOccs mid (List.replicate n e) = n * msgWeight mid e := by
  induction n with
  | zero => simp [msgOccs]
  | succ k ih =>
    rw [List.replicate_succ]
    unfold msgOccs at ih ⊢
    rw [List.map_cons, List.sum_cons, ih, Nat.succ_mul]
    omega

theorem uidCount_eq_zero {α : Type} [BEq α] [LawfulBEq α] (u : α)
    (l : List α) (h : u ∉ l) : uidCount u l = 0 := by
  unfold uidCount
  rw [List.countP_eq_zero]
  intro v hv
  simp only [beq_iff_eq]
  intro hcontra
  exact h (hcontra ▸ hv)

theorem uidCount_eq_one {α : Type} [BEq α] [LawfulBEq α] (u : α) :
    ∀ l : List α, l.Nodup → u ∈ l → uidCount u l = 1
  | [], _, hm => absurd hm (by simp)
  | v :: rest, hn, hm => by
    rw [List.nodup_cons] at hn
    unfold uidCount
    rw [List.countP_cons]
    rcases List.mem_cons.mp hm with rfl | hm
    · have h0 : uidCount u rest = 0 := uidCount_eq_zero u rest hn.1
      unfold uidCount at h0
      rw [h0]
      simp
    · have h1 : uidCount u rest = 1 := uidCount_eq_one u rest hn.2 hm
      have hvne : v ≠ u := by
        intro hcontra
        exact hn.1 (hcontra ▸ hm)
      unfold uidCount at h1
      rw [h1]
      simp [hvne]

/-- Per-feed effect of `publishAll`: each feed receives as many copies of
the event as the number of occurrences of its uid in the recipient list. -/
theorem publishAll_delivered (e : ServerEvent) :
    ∀ (uids : List JStr) (s : ServerState) (f' : Feed),
      f' ∈ (publishAll uids e s).feeds →
      ∃ f ∈ s.feeds, f'.uid = f.uid ∧
        f'.delivered = f.delivered ++ List.replicate (uidCount f.uid uids) e
  | [], s, f', hf' => ⟨f', hf', rfl, by simp [uidCount]⟩
  | u :: rest, s, f', hf' => by
    obtain ⟨f1, hf1, huid1, hdel1⟩ :=
      publishAll_delivered e rest (publish u e s) f' hf'
    obtain ⟨f0, hf0, hmap⟩ := List.mem_map.mp hf1
    by_cases hu : (f0.uid == u) = true
    · have hpush : f1 = { f0 with delivered := f0.delivered ++ [e] } := by
        rw [← hmap, pushToFeed, if_pos hu]
      have huideq : f0.uid = u := by simpa using hu
      refine ⟨f0, hf0, by rw [huid1, hpush], ?_⟩
      have hcount : uidCount f0.uid (u :: rest) = uidCount f0.uid rest + 1 := by
        unfold uidCount
        rw [List.countP_cons]
        simp [huideq]
      rw [hdel1, hpush, hcount]
      show (f0.delivered ++ [e]) ++ List.replicate (uidCount f0.uid rest) e =
        f0.delivered ++ List.replicate (uidCount f0.uid rest + 1) e
      rw [List.append_assoc, List.replicate_succ]
      rfl
    · have hpush : f1 = f0 := by
        rw [← hmap, pushToFeed, if_neg (by simp_all)]
      refine ⟨f0, hf0, by rw [huid1, hpush], ?_⟩
      have hne : f0.uid ≠ u := by simpa using hu
      have hcount : uidCount f0.uid (u :: rest) = uidCount f0.uid rest := by
        unfold uidCount
        rw [List.countP_cons]
        simp [Ne.symm hne]
      rw [hdel1, hpush, hcount]

/-- Transfer of the invariant along a state change that keeps
conversations and the counter, and changes each feed's delivered list only
in ways that preserve both counts. -/
theorem StateInv_transfer (s sOut : ServerState)
    (hC : sOut.conversations = s.conversations)
    (hN : sOut.nextMessageId = s.nextMessageId)
    (hF : ∀ f' ∈ sOut.feeds, ∃ f ∈ s.feeds, f'.uid = f.uid ∧
      (∀ cid, convEventCount cid f'.delivered =
        convEventCount cid f.delivered) ∧
      (∀ mid, msgOccs mid f'.delivered = msgOccs mid f.delivered))
    (h : StateInv s) : StateInv sOut := by
  obtain ⟨h1, h2, h3, h4, h5, h6, h7, h8⟩ := h
  refine ⟨by rw [hC]; exact h1, by rw [hC]; exact h2,
    by rw [hC, hN]; exact h3, by rw [hC]; exact h4, ?_, ?_, ?_, ?_⟩
  · intro f' hf' c hc hp
    obtain ⟨f, hf, hu, hcc, _⟩ := hF f' hf'
    rw [hC] at hc
    rw [hcc]
    exact h5 f hf c hc (by rwa [← hu])
  · intro f' hf' cid hcid
    obtain ⟨f, hf, _, hcc, _⟩ := hF f' hf'
    rw [hC] at hcid
    rw [hcc]
    exact h6 f hf cid hcid
  · intro f' hf' c hc hp m hm
    obtain ⟨f, hf, hu, _, hmo⟩ := hF f' hf'
    rw [hC] at hc
    rw [hmo]
    exact h7 f hf c hc (by rwa [← hu]) m hm
  · intro f' hf' mid hmid
    obtain ⟨f, hf, _, _, hmo⟩ := hF f' hf'
    rw [hN] at hmid
    rw [hmo]
    exact h8 f hf mid hmid

/-- The initial state satisfies the invariant. -/
theorem StateInv_initial : StateInv initialState := by
  refine ⟨?_, ?_, ?_, ?_, ?_, ?_, ?_, ?_⟩ <;> simp [initialState]

/-- A found user record carries the uid it was looked up by. -/
theorem getUser_uid (uid : JStr) (s : ServerState) (u : Identity)
    (h : getUser uid s = some u) : u.uid = uid := by
  unfold getUser at h
  simpa using List.find?_some h

theorem uidCount_append {α : Type} [BEq α] (u : α) (l1 l2 : List α) :
    uidCount u (l1 ++ l2) = uidCount u l1 + uidCount u l2 := by
  unfold uidCount
  rw [List.countP_append]

/-- Counting messages by id equals counting in the projected id list. -/
theorem countP_id_eq_count (mid : Nat) : ∀ ms : List Message,
    ms.countP (fun m => m.id == mid) =
      uidCount mid (ms.map (fun m => m.id))
  | [] => rfl
  | m :: ms => by
    unfold uidCount
    rw [List.countP_cons, List.map_cons, List.countP_cons]
    have ih := countP_id_eq_count mid ms
    unfold uidCount at ih
    rw [ih]

/-- The total per-conversation count of a message id equals its count in
the flattened id list. -/
theorem sum_countP_eq_count_flatten (mid : Nat) : ∀ L : List Conversation,
    (L.map (fun d => d.messages.countP (fun m => m.id == mid))).sum =
      uidCount mid ((L.map msgIds).flatten)
  | [] => rfl
  | d :: rest => by
    rw [List.map_cons, List.sum_cons, List.map_cons, List.flatten_cons,
      uidCount_append, sum_countP_eq_count_flatten mid rest,
      countP_id_eq_count mid d.messages]
    rfl

/-- Flattening preserves the sublist relation. -/
theorem flatten_sublist {l1 l2 : List (List Nat)} (h : List.Sublist l1 l2) :
    List.Sublist l1.flatten l2.flatten := by
  induction h with
  | slnil => exact List.Sublist.refl _
  | cons a _ ih =>
    rw [List.flatten_cons]
    exact ih.trans (List.sublist_append_right _ _)
  | cons₂ a _ ih =>
    rw [List.flatten_cons, List.flatten_cons]
    exact (List.append_sublist_append_left a).mpr ih

/-- Membership in the flattened id lists after replacing the conversation
named `cid` by `c'`. -/
theorem mem_flatten_update (cid : JStr) (c' : Conversation) :
    ∀ (l : List Conversation) (x : Nat),
      x ∈ ((l.map (fun d => if d.id == cid then c' else d)).map msgIds).flatten →
      x ∈ (l.map msgIds).flatten ∨ x ∈ msgIds c'
  | [], x, hx => by simp at hx
  | d :: rest, x, hx => by
    rw [List.map_cons, List.map_cons, List.flatten_cons] at hx
    rw [List.map_cons, List.flatten_cons]
    rcases List.mem_append.mp hx with hx | hx
    · by_cases hd : (d.id == cid) = true
      · rw [if_pos hd] at hx
        exact Or.inr hx
      · rw [if_neg hd] at hx
        exact Or.inl (List.mem_append.mpr (Or.inl hx))
    · rcases mem_flatten_update cid c' rest x hx with h | h
      · exact Or.inl (List.mem_append.mpr (Or.inr h))
      · exact Or.inr h

/-- Replacing the conversation named `cid` by an extension of it with one
fresh message id keeps the flattened id list duplicate-free. -/
theorem nodup_flatten_update (cid : JStr) (c c' : Conversation) (newId : Nat)
    (hmsg : msgIds c' = msgIds c ++ [newId]) :
    ∀ l : List Conversation,
      (l.map (fun d => d.id)).Nodup →
      ((l.map msgIds).flatten).Nodup →
      (∀ d ∈ l, newId ∉ msgIds d) →
      c ∈ l → c.id = cid →
      (((l.map (fun d => if d.id == cid then c' else d)).map msgIds).flatten).Nodup
  | [], _, _, _, hc, _ => absurd hc (by simp)
  | d :: rest, hids, hflat, hfresh, hc, hcid => by
    rw [List.map_cons, List.map_cons, List.flatten_cons]
    rw [List.map_cons, List.flatten_cons] at hflat
    rw [List.map_cons, List.nodup_cons] at hids
    rw [List.nodup_append] at hflat
    by_cases hd : (d.id == cid) = true
    · have hdc : d.id = cid := by simpa using hd
      have hceq : c = d := by
        rcases List.mem_cons.mp hc with rfl | hcr
        · rfl
        · exfalso
          apply hids.1
          have : c.id ∈ rest.map (fun e => e.id) :=
            List.mem_map.mpr ⟨c, hcr, rfl⟩
          rwa [hcid, ← hdc] at this
      have hrest : rest.map (fun e => if e.id == cid then c' else e) = rest := by
        have hptw : ∀ e ∈ rest, (if e.id == cid then c' else e) = e := by
          intro e he
          rw [if_neg]
          intro hcontra
          apply hids.1
          have heid : e.id = cid := by simpa using hcontra
          exact List.mem_map.mpr ⟨e, he, by rw [heid, ← hdc]⟩
        calc rest.map (fun e => if e.id == cid then c' else e)
            = rest.map id := List.map_congr_left hptw
          _ = rest := List.map_id rest
      rw [if_pos hd, hrest, hmsg, hceq]
      have hnewd : newId ∉ msgIds d := hfresh d (by simp)
      have hnewF : newId ∉ ((rest.map msgIds).flatten) := by
        intro hmem
        obtain ⟨ids, hids', hmemids⟩ := List.mem_flatten.mp hmem
        obtain ⟨e, he, rfl⟩ := List.mem_map.mp hids'
        exact hfresh e (by simp [he]) hmemids
      rw [List.append_assoc, List.nodup_append]
      refine ⟨hflat.1, ?_, ?_⟩
      · rw [show [newId] ++ (rest.map msgIds).flatten =
          newId :: (rest.map msgIds).flatten from rfl, List.nodup_cons]
        exact ⟨hnewF, hflat.2.1⟩
      · intro a ha
        intro hmem
        rcases List.mem_append.mp hmem with hmem | hmem
        · rw [List.mem_singleton] at hmem
          subst hmem
          exact hnewd ha
        · exact hflat.2.2 ha hmem
    · have hcr : c ∈ rest := by
        rcases List.mem_cons.mp hc with rfl | hcr
        · exact absurd (by simpa using hcid) hd
        · exact hcr
      rw [if_neg hd]
      have ih := nodup_flatten_update cid c c' newId hmsg rest hids.2
        hflat.2.1 (fun e he => hfresh e (by simp [he])) hcr hcid
      rw [List.nodup_append]
      refine ⟨hflat.1, ih, ?_⟩
      intro a ha hmem
      rcases mem_flatten_update cid c' rest a hmem with hmem | hmem
      · exact hflat.2.2 ha hmem
      · rw [hmsg] at hmem
        rcases List.mem_append.mp hmem with hmem | hmem
        · have hmemF : a ∈ (rest.map msgIds).flatten :=
            List.mem_flatten.mpr ⟨msgIds c, List.mem_map.mpr ⟨c, hcr, rfl⟩, hmem⟩
          exact hflat.2.2 ha hmemF
        · rw [List.mem_singleton] at hmem
          subst hmem
          exact hfresh d (by simp) ha

/-- The conversation-id projection is unchanged by replacing the
conversation named `cid` with one of the same id. -/
theorem map_ids_update (cid : JStr) (c' : Conversation) (hc' : c'.id = cid)
    (l : List Conversation) :
    (l.map (fun d => if d.id == cid then c' else d)).map (fun d => d.id) =
      l.map (fun d => d.id) := by
  rw [List.map_map]
  apply List.map_congr_left
  intro d hd
  by_cases h : (d.id == cid) = true
  · have hdc : d.id = cid := by simpa using h
    show (if d.id == cid then c' else d).id = d.id
    rw [if_pos h, hc', hdc]
  · show (if d.id == cid then c' else d).id = d.id
    rw [if_neg h]

/-- Conversation-event count of a pure snapshot list. -/
theorem convEventCount_map_conversation (cid : JStr) :
    ∀ L : List Conversation,
      convEventCount cid (L.map ServerEvent.conversation) =
        uidCount cid (L.map (fun d => d.id))
  | [] => rfl
  | d :: rest => by
    have ih := convEventCount_map_conversation cid rest
    rw [List.map_cons, List.map_cons]
    unfold convEventCount at ih ⊢
    unfold uidCount at ih ⊢
    rw [List.countP_cons, List.countP_cons, ih]
    rfl

/-- Message-occurrence count of a pure snapshot list. -/
theorem msgOccs_map_conversation (mid : Nat) (L : List Conversation) :
    msgOccs mid (L.map ServerEvent.conversation) =
      uidCount mid ((L.map msgIds).flatten) := by
  unfold msgOccs
  rw [List.map_map, ← sum_countP_eq_count_flatten]
  rfl

/-- Conversation-event count ignores a leading hello event. -/
theorem convEventCount_hello_cons (cid u : JStr) (evs : List ServerEvent) :
    convEventCount cid (.hello u :: evs) = convEventCount cid evs := by
  unfold convEventCount
  rw [List.countP_cons]
  rfl

/-- Message-occurrence count ignores a leading hello event. -/
theorem msgOccs_hello_cons (mid : Nat) (u : JStr) (evs : List ServerEvent) :
    msgOccs mid (.hello u :: evs) = msgOccs mid evs := by
  unfold msgOccs
  rw [List.map_cons, List.sum_cons,
    show msgWeight mid (.hello u) = 0 from rfl, Nat.zero_add]

/-- The user route's POST preserves conversations, feeds and the counter. -/
theorem userPOST_state (bu bn : Option JStr) (s : ServerState) :
    (userPOST bu bn s).2.conversations = s.conversations ∧
    (userPOST bu bn s).2.feeds = s.feeds ∧
    (userPOST bu bn s).2.nextMessageId = s.nextMessageId := by
  unfold userPOST
  split
  · exact ⟨rfl, rfl, rfl⟩
  · unfold saveUser
    split
    · exact ⟨rfl, rfl, rfl⟩
    · split
      · exact ⟨rfl, rfl, rfl⟩
      · exact ⟨rfl, rfl, rfl⟩

/-- Registration preserves the delivery invariant. -/
theorem userPOST_inv (bu bn : Option JStr) (s : ServerState)
    (h : StateInv s) : StateInv (userPOST bu bn s).2 := by
  obtain ⟨hC, hF, hN⟩ := userPOST_state bu bn s
  refine StateInv_transfer s _ hC hN ?_ h
  intro f' hf'
  rw [hF] at hf'
  exact ⟨f', hf', rfl, fun _ => rfl, fun _ => rfl⟩

/-- Appending one event that is neither a conversation event nor carries
messages leaves both counts unchanged. -/
theorem counts_append_neutral (evs : List ServerEvent) (e : ServerEvent)
    (hconv : ∀ cid, isConvEvent cid e = false)
    (hmsg : ∀ mid, msgWeight mid e = 0) :
    (∀ cid, convEventCount cid (evs ++ [e]) = convEventCount cid evs) ∧
    (∀ mid, msgOccs mid (evs ++ [e]) = msgOccs mid evs) := by
  constructor
  · intro cid
    rw [convEventCount_append]
    have h0 : convEventCount cid [e] = 0 := by
      unfold convEventCount
      rw [List.countP_cons, List.countP_nil, hconv cid]
      rfl
    rw [h0]
    omega
  · intro mid
    rw [msgOccs_append]
    have h0 : msgOccs mid [e] = 0 := by
      unfold msgOccs
      rw [List.map_cons, List.map_nil, List.sum_cons, List.sum_nil, hmsg mid]
      omega
    rw [h0]
    omega

/-- `pushToFeed` with a neutral event preserves both counts. -/
theorem pushToFeed_counts (u : JStr) (e : ServerEvent)
    (hconv : ∀ cid, isConvEvent cid e = false)
    (hmsg : ∀ mid, msgWeight mid e = 0) (f : Feed) :
    (pushToFeed u e f).uid = f.uid ∧
    (∀ cid, convEventCount cid (pushToFeed u e f).delivered =
      convEventCount cid f.delivered) ∧
    (∀ mid, msgOccs mid (pushToFeed u e f).delivered =
      msgOccs mid f.delivered) := by
  unfold pushToFeed
  split
  · obtain ⟨h1, h2⟩ := counts_append_neutral f.delivered e hconv hmsg
    exact ⟨rfl, h1, h2⟩
  · exact ⟨rfl, fun _ => rfl, fun _ => rfl⟩

/-- Renaming preserves the delivery invariant: it only publishes user
events, which carry no conversations or messages. -/
theorem userPUT_inv (bu bn : Option JStr) (s : ServerState)
    (h : StateInv s) : StateInv (userPUT bu bn s).2 := by
  cases bu with
  | none => simpa [userPUT] using h
  | some uid =>
    cases hrp : renameParticipant uid (sanitizeName bn) s with
    | error e => simpa [userPUT, hrp] using h
    | ok p =>
      obtain ⟨u, s'⟩ := p
      have hrp' := hrp
      unfold renameParticipant at hrp'
      split at hrp'
      · exact absurd hrp' (by simp)
      · simp only [Except.ok.injEq, Prod.mk.injEq] at hrp'
        obtain ⟨hu, hs'⟩ := hrp'
        have hout : (userPUT (some uid) bn s).2 = s' := by
          simp [userPUT, hrp]
        rw [hout]
        refine StateInv_transfer s s' ?_ ?_ ?_ h
        · rw [← hs']
          rfl
        · rw [← hs']
          rfl
        · intro f' hf'
          have hfeeds : s'.feeds =
              s.feeds.map
                (pushToFeed uid (.user uid (sanitizeName bn))) := by
            rw [← hs']
            rfl
          rw [hfeeds] at hf'
          obtain ⟨f, hf, hmap⟩ := List.mem_map.mp hf'
          obtain ⟨h1, h2, h3⟩ := pushToFeed_counts uid
            (.user uid (sanitizeName bn)) (fun _ => rfl) (fun _ => rfl) f
          rw [← hmap]
          exact ⟨f, hf, h1, h2, h3⟩

/-- Creating a conversation preserves the delivery invariant: the fresh
conversation event reaches exactly the feeds of the two distinct
participants, and no feed had any event for the fresh id. -/
theorem create_conv_inv (s : ServerState) (fuid tuid : JStr)
    (uFrom uTo : Identity) (now : Nat) (s' : ServerState) (cid : JStr)
    (c0 : Conversation) (hc0 : c0 = ⟨cid, [uFrom, uTo], [], now⟩)
    (hneq : fuid ≠ tuid)
    (hufu : uFrom.uid = fuid) (hutu : uTo.uid = tuid)
    (hfresh : cid ∉ s.conversations.map (fun d => d.id))
    (hs' : publishAll [fuid, tuid] (.conversation c0)
      { s with conversations := c0 :: s.conversations } = s')
    (h : StateInv s) : StateInv s' := by
  have hc0id : c0.id = cid := by rw [hc0]
  have hc0msgs : c0.messages = [] := by rw [hc0]
  have hparts : participantUids c0 = [fuid, tuid] := by
    rw [hc0]
    simp [participantUids, hufu, hutu]
  have hconvs' : s'.conversations = c0 :: s.conversations := by
    rw [← hs']
    exact (publishAll_preserves _ _ _).2.1
  have hnext' : s'.nextMessageId = s.nextMessageId := by
    rw [← hs']
    exact (publishAll_preserves _ _ _).2.2
  have hfeeds : ∀ f' ∈ s'.feeds, ∃ f ∈ s.feeds, f'.uid = f.uid ∧
      f'.delivered = f.delivered ++
        List.replicate (uidCount f.uid [fuid, tuid]) (.conversation c0) := by
    intro f' hf'
    rw [← hs'] at hf'
    exact publishAll_delivered _ _ _ _ hf'
  constructor
  · rw [hconvs', List.map_cons, List.nodup_cons, hc0id]
    exact ⟨hfresh, h.cidsNodup⟩
  · intro d hd
    rw [hconvs'] at hd
    rcases List.mem_cons.mp hd with hdc | hd
    · rw [hdc, hparts]
      simp [hneq]
    · exact h.partsNodup d hd
  · intro d hd m hm
    rw [hconvs'] at hd
    rw [hnext']
    rcases List.mem_cons.mp hd with hdc | hd
    · rw [hdc, hc0msgs] at hm
      simp at hm
    · exact h.msgIdBound d hd m hm
  · rw [hconvs', List.map_cons, List.flatten_cons,
      show msgIds c0 = [] by rw [msgIds, hc0msgs]; rfl, List.nil_append]
    exact h.msgIdsNodup
  · intro f' hf' d hd hp
    obtain ⟨f, hf, huid, hdel⟩ := hfeeds f' hf'
    rw [hconvs'] at hd
    rcases List.mem_cons.mp hd with hdc | hd
    · rw [hdc, hparts] at hp
      rw [huid] at hp
      rw [hdc]
      have hcount : uidCount f.uid [fuid, tuid] = 1 :=
        uidCount_eq_one f.uid [fuid, tuid] (by simp [hneq]) hp
      rw [hdel, convEventCount_append, hcount, convEventCount_replicate,
        show isConvEvent c0.id (.conversation c0) = true by
          simp [isConvEvent],
        h.feedConvAbsent f hf c0.id (by rwa [hc0id])]
      simp
    · have hbase : convEventCount d.id f.delivered = 1 :=
        h.feedConvMem f hf d hd (by rwa [huid] at hp)
      have hne : d.id ≠ cid := by
        intro hcontra
        exact hfresh (hcontra ▸ List.mem_map.mpr ⟨d, hd, rfl⟩)
      rw [hdel, convEventCount_append, convEventCount_replicate,
        show isConvEvent d.id (.conversation c0) = false by
          simp only [isConvEvent, hc0id]
          simpa using Ne.symm hne,
        hbase]
      simp
  · intro f' hf' cid' hcid'
    obtain ⟨f, hf, huid, hdel⟩ := hfeeds f' hf'
    rw [hconvs', List.map_cons] at hcid'
    have h1 : cid' ≠ c0.id := fun hcontra => hcid' (by simp [hcontra])
    have h2 : cid' ∉ s.conversations.map (fun c => c.id) :=
      fun hcontra => hcid' (List.mem_cons_of_mem _ hcontra)
    rw [hdel, convEventCount_append, convEventCount_replicate,
      show isConvEvent cid' (.conversation c0) = false by
        simp [isConvEvent]
        exact Ne.symm h1,
      h.feedConvAbsent f hf cid' h2]
    simp
  · intro f' hf' d hd hp m hm
    obtain ⟨f, hf, huid, hdel⟩ := hfeeds f' hf'
    rw [hconvs'] at hd
    rcases List.mem_cons.mp hd with hdc | hd
    · rw [hdc, hc0msgs] at hm
      simp at hm
    · have base : msgOccs m.id f.delivered = 1 :=
        h.feedMsgMem f hf d hd (by rwa [huid] at hp) m hm
      rw [hdel, msgOccs_append, msgOccs_replicate,
        show msgWeight m.id (.conversation c0) = 0 by
          simp [msgWeight, hc0msgs],
        base]
      simp
  · intro f' hf' mid hmid
    obtain ⟨f, hf, huid, hdel⟩ := hfeeds f' hf'
    rw [hnext'] at hmid
    rw [hdel, msgOccs_append, msgOccs_replicate,
      show msgWeight mid (.conversation c0) = 0 by
        simp [msgWeight, hc0msgs],
      h.feedMsgFresh f hf mid hmid]
    simp

/-- The connect route preserves the delivery invariant. -/
theorem connectPOST_inv (bf bt : Option JStr) (now : Nat) (s : ServerState)
    (h : StateInv s) : StateInv (connectPOST bf bt now s).2 := by
  cases bf with
  | none => simpa [connectPOST] using h
  | some fuid =>
    cases bt with
    | none => simpa [connectPOST] using h
    | some tuid =>
      cases hec : ensureConversation fuid tuid now s with
      | error e => simpa [connectPOST, hec] using h
      | ok p =>
        obtain ⟨c, s'⟩ := p
        have hout : (connectPOST (some fuid) (some tuid) now s).2 = s' := by
          simp [connectPOST, hec]
        rw [hout]
        have hec' := hec
        unfold ensureConversation at hec'
        split at hec'
        · exact absurd hec' (by simp)
        case isFalse hne =>
          split at hec'
          case h_2 => exact absurd hec' (by simp)
          case h_1 uFrom uTo hfu htu =>
            cases hfc : findConversation (canonicalConversationId fuid tuid) s
              with
            | some c0 =>
              simp only [hfc, Except.ok.injEq, Prod.mk.injEq] at hec'
              rw [← hec'.2]
              exact h
            | none =>
              simp only [hfc, Except.ok.injEq, Prod.mk.injEq] at hec'
              have hfresh : canonicalConversationId fuid tuid ∉
                  s.conversations.map (fun d => d.id) := by
                intro hmem
                obtain ⟨d, hd, hdid⟩ := List.mem_map.mp hmem
                have hnone := List.find?_eq_none.mp
                  (by unfold findConversation at hfc; exact hfc) d hd
                exact hnone (by simp [hdid])
              exact create_conv_inv s fuid tuid uFrom uTo now s'
                (canonicalConversationId fuid tuid) _ rfl
                (by simpa using hne)
                (getUser_uid _ _ _ hfu) (getUser_uid _ _ _ htu)
                hfresh hec'.2 h

/-- Appending a message preserves the delivery invariant: the fresh
message event reaches exactly the feeds of the conversation's participants,
none of which had seen the fresh message id before. -/
theorem append_msg_inv (s : ServerState) (cid : JStr)
    (c c' : Conversation) (m : Message) (s' : ServerState)
    (hfind : findConversation cid s = some c)
    (hmid : m.id = s.nextMessageId)
    (hc'id : c'.id = c.id) (hc'parts : c'.participants = c.participants)
    (hc'msgs : c'.messages = c.messages ++ [m])
    (hs' : publishAll (participantUids c) (.message cid m)
      { s with
        conversations := s.conversations.map
          (fun d => if d.id == cid then c' else d),
        nextMessageId := s.nextMessageId + 1 } = s')
    (h : StateInv s) : StateInv s' := by
  have hfind0 : s.conversations.find? (fun d => d.id == cid) = some c := hfind
  have hmemc : c ∈ s.conversations := List.mem_of_find?_eq_some hfind0
  have hcidc : c.id = cid := by simpa using List.find?_some hfind0
  have hc'id2 : c'.id = cid := hc'id.trans hcidc
  have hpartsEq : participantUids c' = participantUids c := by
    rw [participantUids, participantUids, hc'parts]
  have hconvs' : s'.conversations =
      s.conversations.map (fun d => if d.id == cid then c' else d) := by
    rw [← hs']
    exact (publishAll_preserves _ _ _).2.1
  have hnext' : s'.nextMessageId = s.nextMessageId + 1 := by
    rw [← hs']
    exact (publishAll_preserves _ _ _).2.2
  have hfeeds : ∀ f' ∈ s'.feeds, ∃ f ∈ s.feeds, f'.uid = f.uid ∧
      f'.delivered = f.delivered ++
        List.replicate (uidCount f.uid (participantUids c))
          (.message cid m) := by
    intro f' hf'
    rw [← hs'] at hf'
    obtain ⟨f, hf, huid, hdel⟩ := publishAll_delivered (.message cid m)
      (participantUids c) _ f' hf'
    exact ⟨f, hf, huid, hdel⟩
  have hfreshIds : ∀ d ∈ s.conversations, m.id ∉ msgIds d := by
    intro d hd hmem
    obtain ⟨m0, hm0, hm0id⟩ := List.mem_map.mp hmem
    have := h.msgIdBound d hd m0 hm0
    omega
  constructor
  · rw [hconvs', map_ids_update cid c' hc'id2]
    exact h.cidsNodup
  · intro d hd
    rw [hconvs'] at hd
    obtain ⟨d0, hd0, hmap⟩ := List.mem_map.mp hd
    by_cases h0 : (d0.id == cid) = true
    · rw [if_pos h0] at hmap
      rw [← hmap, hpartsEq]
      exact h.partsNodup c hmemc
    · rw [if_neg h0] at hmap
      rw [← hmap]
      exact h.partsNodup d0 hd0
  · intro d hd m'' hm''
    rw [hconvs'] at hd
    rw [hnext']
    obtain ⟨d0, hd0, hmap⟩ := List.mem_map.mp hd
    by_cases h0 : (d0.id == cid) = true
    · rw [if_pos h0] at hmap
      rw [← hmap, hc'msgs] at hm''
      rcases List.mem_append.mp hm'' with hm'' | hm''
      · have := h.msgIdBound c hmemc m'' hm''
        omega
      · rw [List.mem_singleton] at hm''
        subst hm''
        omega
    · rw [if_neg h0] at hmap
      rw [← hmap] at hm''
      have := h.msgIdBound d0 hd0 m'' hm''
      omega
  · rw [hconvs']
    exact nodup_flatten_update cid c c' m.id
      (by rw [msgIds, msgIds, hc'msgs, List.map_append]; rfl)
      s.conversations h.cidsNodup h.msgIdsNodup hfreshIds hmemc hcidc
  · intro f' hf' d hd hp
    obtain ⟨f, hf, huid, hdel⟩ := hfeeds f' hf'
    have hcounts : ∀ x, convEventCount x f'.delivered =
        convEventCount x f.delivered := by
      intro x
      rw [hdel, convEventCount_append, convEventCount_replicate,
        show isConvEvent x (.message cid m) = false from rfl]
      simp
    rw [hconvs'] at hd
    obtain ⟨d0, hd0, hmap⟩ := List.mem_map.mp hd
    by_cases h0 : (d0.id == cid) = true
    · rw [if_pos h0] at hmap
      rw [← hmap] at hp ⊢
      rw [hpartsEq] at hp
      rw [hcounts, hc'id]
      exact h.feedConvMem f hf c hmemc (by rwa [huid] at hp)
    · rw [if_neg h0] at hmap
      rw [← hmap] at hp ⊢
      rw [hcounts]
      exact h.feedConvMem f hf d0 hd0 (by rwa [huid] at hp)
  · intro f' hf' cid' hcid'
    obtain ⟨f, hf, huid, hdel⟩ := hfeeds f' hf'
    have hcounts : ∀ x, convEventCount x f'.delivered =
        convEventCount x f.delivered := by
      intro x
      rw [hdel, convEventCount_append, convEventCount_replicate,
        show isConvEvent x (.message cid m) = false from rfl]
      simp
    rw [hconvs', map_ids_update cid c' hc'id2] at hcid'
    rw [hcounts]
    exact h.feedConvAbsent f hf cid' hcid'
  · intro f' hf' d hd hp m'' hm''
    obtain ⟨f, hf, huid, hdel⟩ := hfeeds f' hf'
    have hocc : ∀ x, msgOccs x f'.delivered = msgOccs x f.delivered +
        uidCount f.uid (participantUids c) *
          (if m.id == x then 1 else 0) := by
      intro x
      rw [hdel, msgOccs_append, msgOccs_replicate]
      rfl
    rw [hconvs'] at hd
    obtain ⟨d0, hd0, hmap⟩ := List.mem_map.mp hd
    by_cases h0 : (d0.id == cid) = true
    · rw [if_pos h0] at hmap
      rw [← hmap] at hp hm''
      rw [hpartsEq] at hp
      rw [huid] at hp
      have hk : uidCount f.uid (participantUids c) = 1 :=
        uidCount_eq_one f.uid (participantUids c)
          (h.partsNodup c hmemc) hp
      rw [hc'msgs] at hm''
      rcases List.mem_append.mp hm'' with hm'' | hm''
      · have hlt := h.msgIdBound c hmemc m'' hm''
        have hne : (m.id == m''.id) = false := by
          simp only [beq_eq_false_iff_ne]
          omega
        rw [hocc, hne, hk,
          h.feedMsgMem f hf c hmemc hp m'' hm'']
        simp
      · rw [List.mem_singleton] at hm''
        subst hm''
        rw [hocc, hk,
          show (m''.id == m''.id) = true by simp,
          h.feedMsgFresh f hf m''.id (by omega)]
        simp
    · rw [if_neg h0] at hmap
      rw [← hmap] at hp hm''
      rw [huid] at hp
      have hlt := h.msgIdBound d0 hd0 m'' hm''
      have hne : (m.id == m''.id) = false := by
        simp only [beq_eq_false_iff_ne]
        omega
      rw [hocc, hne,
        h.feedMsgMem f hf d0 hd0 hp m'' hm'']
      simp
  · intro f' hf' mid hmid
    obtain ⟨f, hf, huid, hdel⟩ := hfeeds f' hf'
    rw [hnext'] at hmid
    have hocc : msgOccs mid f'.delivered = msgOccs mid f.delivered +
        uidCount f.uid (participantUids c) *
          (if m.id == mid then 1 else 0) := by
      rw [hdel, msgOccs_append, msgOccs_replicate]
      rfl
    have hne : (m.id == mid) = false := by
      simp only [beq_eq_false_iff_ne]
      omega
    rw [hocc, hne, h.feedMsgFresh f hf mid (by omega)]
    simp

/-- The message route preserves the delivery invariant. -/
theorem messagePOST_inv (bc bf bt : Option JStr) (now : Nat)
    (s : ServerState) (h : StateInv s) :
    StateInv (messagePOST bc bf bt now s).2 := by
  rcases hstep : messagePOST bc bf bt now s with ⟨res, s2⟩
  cases res with
  | ok m =>
    cases bc with
    | none => exact absurd hstep (by simp [messagePOST])
    | some cid =>
      cases bf with
      | none => exact absurd hstep (by simp [messagePOST])
      | some fuid =>
        cases bt with
        | none => exact absurd hstep (by simp [messagePOST, jsTrim])
        | some t =>
          obtain ⟨u, _, happ⟩ := messagePOST_ok_inv _ _ _ _ _ _ _ hstep
          show StateInv s2
          unfold appendMessage at happ
          split at happ
          case h_1 => exact absurd happ (by simp)
          case h_2 c hfind =>
            split at happ
            · exact absurd happ (by simp)
            · split at happ
              · exact absurd happ (by simp)
              · simp only [Except.ok.injEq, Prod.mk.injEq] at happ
                obtain ⟨hm, hs'⟩ := happ
                rw [hm] at hs'
                exact append_msg_inv s cid c
                  { c with messages := c.messages ++ [m],
                           updatedAt := max now c.updatedAt }
                  m s2 hfind (by rw [← hm]) rfl rfl rfl hs' h
  | clientError st =>
    have := messagePOST_not_ok_state _ _ _ _ _ _ _ hstep (by simp)
    subst this
    exact h
  | thrown e =>
    have := messagePOST_not_ok_state _ _ _ _ _ _ _ hstep (by simp)
    subst this
    exact h

/-- Opening a feed preserves the delivery invariant: the fresh feed's
snapshot holds exactly one conversation event per conversation of its
identity, each snapshot payload carrying each stored message exactly
once. -/
theorem openFeed_inv (uid : JStr) (s : ServerState) (h : StateInv s) :
    StateInv (openFeed uid s) := by
  have hL : List.Sublist (listConversationsForUser uid s) s.conversations :=
    List.filter_sublist s.conversations
  have hidsN : ((listConversationsForUser uid s).map (fun d => d.id)).Nodup :=
    List.Nodup.sublist (hL.map (fun d => d.id)) h.cidsNodup
  have hflatN :
      (((listConversationsForUser uid s).map msgIds).flatten).Nodup :=
    List.Nodup.sublist (flatten_sublist (hL.map msgIds)) h.msgIdsNodup
  have hLsub : ∀ d ∈ listConversationsForUser uid s, d ∈ s.conversations :=
    fun d hd => hL.subset hd
  have hnewConv : ∀ cid, convEventCount cid
      (ServerEvent.hello uid :: snapshotEvents uid s) =
      uidCount cid ((listConversationsForUser uid s).map (fun d => d.id)) := by
    intro cid
    rw [convEventCount_hello_cons, snapshotEvents,
      convEventCount_map_conversation]
  have hnewMsg : ∀ mid, msgOccs mid
      (ServerEvent.hello uid :: snapshotEvents uid s) =
      uidCount mid (((listConversationsForUser uid s).map msgIds).flatten) := by
    intro mid
    rw [msgOccs_hello_cons, snapshotEvents, msgOccs_map_conversation]
  constructor
  · exact h.cidsNodup
  · exact h.partsNodup
  · exact h.msgIdBound
  · exact h.msgIdsNodup
  · intro f' hf' c hc hp
    rcases List.mem_append.mp hf' with hf' | hf'
    · exact h.feedConvMem f' hf' c hc hp
    · rw [List.mem_singleton] at hf'
      subst hf'
      rw [hnewConv]
      have hcL : c ∈ listConversationsForUser uid s := by
        rw [listConversationsForUser, List.mem_filter]
        exact ⟨hc, by simpa using hp⟩
      exact uidCount_eq_one c.id _ hidsN (List.mem_map.mpr ⟨c, hcL, rfl⟩)
  · intro f' hf' cid hcid
    rcases List.mem_append.mp hf' with hf' | hf'
    · exact h.feedConvAbsent f' hf' cid hcid
    · rw [List.mem_singleton] at hf'
      subst hf'
      rw [hnewConv]
      refine uidCount_eq_zero cid _ ?_
      intro hmem
      obtain ⟨d, hdL, hdid⟩ := List.mem_map.mp hmem
      exact hcid (hdid ▸ List.mem_map.mpr ⟨d, hLsub d hdL, rfl⟩)
  · intro f' hf' c hc hp m hm
    rcases List.mem_append.mp hf' with hf' | hf'
    · exact h.feedMsgMem f' hf' c hc hp m hm
    · rw [List.mem_singleton] at hf'
      subst hf'
      rw [hnewMsg]
      have hcL : c ∈ listConversationsForUser uid s := by
        rw [listConversationsForUser, List.mem_filter]
        exact ⟨hc, by simpa using hp⟩
      refine uidCount_eq_one m.id _ hflatN ?_
      exact List.mem_flatten.mpr ⟨msgIds c, List.mem_map.mpr ⟨c, hcL, rfl⟩,
        List.mem_map.mpr ⟨m, hm, rfl⟩⟩
  · intro f' hf' mid hmid
    rcases List.mem_append.mp hf' with hf' | hf'
    · exact h.feedMsgFresh f' hf' mid hmid
    · rw [List.mem_singleton] at hf'
      subst hf'
      rw [hnewMsg]
      refine uidCount_eq_zero mid _ ?_
      intro hmem
      obtain ⟨ids, hids, hmemids⟩ := List.mem_flatten.mp hmem
      obtain ⟨d, hdL, rfl⟩ := List.mem_map.mp hids
      obtain ⟨m0, hm0, hm0id⟩ := List.mem_map.mp hmemids
      have hb := h.msgIdBound d (hLsub d hdL) m0 hm0
      have hn : (openFeed uid s).nextMessageId = s.nextMessageId := rfl
      omega

/-- Every client operation preserves the delivery invariant. -/
theorem step_inv (s : ServerState) (op : ClientOp) (h : StateInv s) :
    StateInv (step s op) := by
  cases op with
  | register bu bn => exact userPOST_inv bu bn s h
  | rename bu bn => exact userPUT_inv bu bn s h
  | connect bf bt now => exact connectPOST_inv bf bt now s h
  | send bc bf bt now => exact messagePOST_inv bc bf bt now s h
  | subscribe uid => exact openFeed_inv uid s h

/-- Every run from an invariant state preserves the invariant. -/
theorem run_inv : ∀ (ops : List ClientOp) (s : ServerState),
    StateInv s → StateInv (run s ops)
  | [], _, h => h
  | op :: ops, s, h => run_inv ops (step s op) (step_inv s op h)

/-- C7: in every reachable state, each live feed has received exactly one
conversation event for each conversation its identity participates in —
delivered either in its open-time snapshot or by the later creation
publish, never both and never neither — and exactly one copy of each of
that conversation's messages, counting both direct message events and the
copies embedded in snapshot payloads. Each client operation is atomic,
which is JavaScript's run-to-completion execution of the route handlers;
in particular the events route subscribes and snapshots in one synchronous
block. -/
theorem feed_exactly_once_delivery (ops : List ClientOp) (f : Feed)
    (c : Conversation)
    (hf : f ∈ (run initialState ops).feeds)
    (hc : c ∈ (run initialState ops).conversations)
    (hp : f.uid ∈ participantUids c) :
    convEventCount c.id f.delivered = 1 ∧
    ∀ m ∈ c.messages, msgOccs m.id f.delivered = 1 :=
  have h := run_inv ops initialState StateInv_initial
  ⟨h.feedConvMem f hf c hc hp, h.feedMsgMem f hf c hc hp⟩

/-- Witness for C7: identities "a" and "b" register, "a" opens a feed,
then the conversation is created and one message is sent; the feed has
exactly one conversation event and exactly one copy of the message. -/
theorem feed_exactly_once_delivery_witness :
    ((run initialState
        [.register (some [97]) (some [65]), .register (some [98]) (some [66]),
         .subscribe [97], .connect (some [97]) (some [98]) 1,
         .send (some [97, 58, 58, 98]) (some [97]) (some [104, 105]) 2]).feeds.getD
        0 ⟨[], []⟩ ∈
      (run initialState
        [.register (some [97]) (some [65]), .register (some [98]) (some [66]),
         .subscribe [97], .connect (some [97]) (some [98]) 1,
         .send (some [97, 58, 58, 98]) (some [97]) (some [104, 105]) 2]).feeds) ∧
    ((run initialState
        [.register (some [97]) (some [65]), .register (some [98]) (some [66]),
         .subscribe [97], .connect (some [97]) (some [98]) 1,
         .send (some [97, 58, 58, 98]) (some [97]) (some [104, 105]) 2]).conversations.getD
        0 ⟨[], [], [], 0⟩ ∈
      (run initialState
        [.register (some [97]) (some [65]), .register (some [98]) (some [66]),
         .subscribe [97], .connect (some [97]) (some [98]) 1,
         .send (some [97, 58, 58, 98]) (some [97]) (some [104, 105]) 2]).conversations) ∧
    (convEventCount
        ((run initialState
          [.register (some [97]) (some [65]), .register (some [98]) (some [66]),
           .subscribe [97], .connect (some [97]) (some [98]) 1,
           .send (some [97, 58, 58, 98]) (some [97]) (some [104, 105]) 2]).conversations.getD
          0 ⟨[], [], [], 0⟩).id
        ((run initialState
          [.register (some [97]) (some [65]), .register (some [98]) (some [66]),
           .subscribe [97], .connect (some [97]) (some [98]) 1,
           .send (some [97, 58, 58, 98]) (some [97]) (some [104, 105]) 2]).feeds.getD
          0 ⟨[], []⟩).delivered = 1 ∧
      ∀ m ∈ ((run initialState
          [.register (some [97]) (some [65]), .register (some [98]) (some [66]),
           .subscribe [97], .connect (some [97]) (some [98]) 1,
           .send (some [97, 58, 58, 98]) (some [97]) (some [104, 105]) 2]).conversations.getD
          0 ⟨[], [], [], 0⟩).messages,
        msgOccs m.id
          ((run initialState
            [.register (some [97]) (some [65]), .register (some [98]) (some [66]),
             .subscribe [97], .connect (some [97]) (some [98]) 1,
             .send (some [97, 58, 58, 98]) (some [97]) (some [104, 105]) 2]).feeds.getD
            0 ⟨[], []⟩).delivered = 1) :=
  ⟨by decide, by decide,
    feed_exactly_once_delivery
      [.register (some [97]) (some [65]), .register (some [98]) (some [66]),
       .subscribe [97], .connect (some [97]) (some [98]) 1,
       .send (some [97, 58, 58, 98]) (some [97]) (some [104, 105]) 2]
      _ _ (by decide) (by decide) (by decide)⟩

end Mesh

